import Mathlib

/-!
Verification of the ReX layout engine (src/layout/engine.rs, builders.rs,
convert.rs) against its natural-language specification.

Lengths are modelled as rationals (the source uses f64; all operations used
are field operations, max/min and comparisons, which ℚ models exactly).
Modules of the repository that are not present under src/ (the font-metrics
provider, the atom-pair spacing table, and layout/mod.rs holding `Style` and
`Layout`) are modelled from the spec, as marked in doc comments; the font
tables are parameters gathered in `FontCtx`.
-/

namespace ReX

/-- Atom types of formula elements (variants as used throughout src/:
engine.rs and parser/nodes.rs). -/
inductive AtomType where
  | Alpha
  | Binary
  | Relation
  | Open
  | Close
  | Punctuation
  | Operator (limits : Bool)
  | Inner
  | Transparent
deriving DecidableEq, Repr

/-- Math styles. The type lives in layout/mod.rs which is absent from src/;
variants are fixed by their uses in src (engine.rs, convert.rs). -/
inductive Style where
  | ScriptScriptCramped
  | ScriptScript
  | ScriptCramped
  | Script
  | TextCramped
  | Text
  | DisplayCramped
  | Display
deriving DecidableEq, Repr

/-- Modelled from the spec: the ordering level of a style.  Spec §4.3: styles
are "totally ordered Display > Text > Script > ScriptScript (cramped variants
compare equal to their uncramped counterpart for ordering purposes)". -/
def Style.level : Style → Nat
  | .ScriptScriptCramped | .ScriptScript => 0
  | .ScriptCramped | .Script => 1
  | .TextCramped | .Text => 2
  | .DisplayCramped | .Display => 3

/-- Modelled from the spec: strict order on styles (§4.3). -/
def Style.sgt (a b : Style) : Bool := b.level < a.level

/-- Modelled from the spec: non-strict order on styles (§4.3). -/
def Style.sge (a b : Style) : Bool := b.level ≤ a.level

/-- Modelled from the spec: whether a style is a cramped variant (§4.3). -/
def Style.is_cramped : Style → Bool
  | .ScriptScriptCramped | .ScriptCramped | .TextCramped | .DisplayCramped => true
  | _ => false

/-- Modelled from the spec: `cramped` forces the cramped variant of the
current level (§4.3). -/
def Style.cramped : Style → Style
  | .ScriptScriptCramped | .ScriptScript => .ScriptScriptCramped
  | .ScriptCramped | .Script => .ScriptCramped
  | .TextCramped | .Text => .TextCramped
  | .DisplayCramped | .Display => .DisplayCramped

/-- Modelled from the spec: superscript style steps down one level
(Display/Text→Script, Script/ScriptScript→ScriptScript), keeping
crampedness (§4.3). -/
def Style.superscript_variant : Style → Style
  | .Display | .Text => .Script
  | .DisplayCramped | .TextCramped => .ScriptCramped
  | .Script | .ScriptScript => .ScriptScript
  | .ScriptCramped | .ScriptScriptCramped => .ScriptScriptCramped

/-- Modelled from the spec: subscript style steps down one level and
additionally forces cramped (§4.3). -/
def Style.subscript_variant (s : Style) : Style :=
  s.superscript_variant.cramped

/-- Modelled from the spec: numerator style steps down one level in the chain
Display→Text→Script→ScriptScript and inherits crampedness (§4.3). -/
def Style.numerator : Style → Style
  | .Display => .Text
  | .DisplayCramped => .TextCramped
  | .Text => .Script
  | .TextCramped => .ScriptCramped
  | .Script | .ScriptScript => .ScriptScript
  | .ScriptCramped | .ScriptScriptCramped => .ScriptScriptCramped

/-- Modelled from the spec: denominator style steps down one level and forces
cramped (§4.3). -/
def Style.denominator (s : Style) : Style :=
  s.numerator.cramped

/-- Spacing categories of the atom-pair spacing table (spec §4.5; the table
itself lives in layout/spacing.rs, absent from src/, and is a parameter of
the embedding). -/
inductive Spacing where
  | NoSpace
  | Thin
  | Medium
  | Thick
deriving DecidableEq, Repr

/-- Length with a unit tag, as used for parser-supplied lengths
(dimensions module; variants per their uses in src/layout/convert.rs). -/
inductive AnyUnit where
  | Em (v : ℚ)
  | Px (v : ℚ)
deriving DecidableEq, Repr

/-- RGBA color (parser/color.rs is absent from src/; payload shape is
irrelevant to layout geometry). -/
structure RGBA where
  r : ℕ
  g : ℕ
  b : ℕ
  a : ℕ
deriving DecidableEq, Repr

/-- Alignment of a horizontal box (layout/mod.rs, absent from src/; variants
fixed by uses in engine.rs and render/mod.rs: default left-flush or centered
against a natural width). -/
inductive Alignment where
  | Default
  | Centered (w : ℚ)
deriving DecidableEq, Repr

/-- Binary-operator reclassification from engine.rs, lines 50–66: the body of
the `if current == AtomType::Binary` block of `layout_recurse`, deciding the
effective atom type of the current node from the previous and next atoms. -/
def reclassify (prev next current : AtomType) : AtomType :=
  if current = .Binary then
    if prev = .Transparent ∨ prev = .Binary ∨ prev = .Relation
        ∨ prev = .Open ∨ prev = .Punctuation then
      .Alpha
    else
      match prev with
      | .Operator _ => .Alpha
      | _ =>
        if next = .Relation ∨ next = .Close ∨ next = .Punctuation then
          .Alpha
        else
          current
  else
    current

/-- Per-glyph payload of a glyph layout node (layout/mod.rs, absent from
src/; fields fixed by uses in engine.rs add_accent/add_scripts and
convert.rs: unicode, glyph id, pixel size, attachment, italics, offset). -/
structure LayoutGlyph where
  unicode : ℕ
  gid : ℕ
  size : ℚ
  attachment : ℚ
  italics : ℚ
  offset : ℚ
deriving DecidableEq, Repr

mutual

/-- Layout node: width, height, depth and a variant payload (data model
of spec §3; the struct lives in layout/mod.rs, absent from src/, its shape
fixed by uses throughout src/layout and src/render). -/
inductive LayoutNode where
  | mk (width height depth : ℚ) (node : LayoutVariant)

/-- Variant payload of a layout node (spec §3 and uses in src/render/mod.rs:
Glyph, Rule, Kern, HorizontalBox, VerticalBox, Grid, Color). -/
inductive LayoutVariant where
  | Glyph (g : LayoutGlyph)
  | Rule
  | Kern
  | HorizontalBox (contents : List LayoutNode) (offset : ℚ) (alignment : Alignment)
  | VerticalBox (contents : List LayoutNode) (offset : ℚ)
  | Grid (contents : List ((ℕ × ℕ) × LayoutNode)) (rows : List (ℚ × ℚ))
      (columns : List ℚ)
  | Color (color : RGBA) (inner : List LayoutNode)

end

/-- Width accessor of a layout node. -/
def LayoutNode.width : LayoutNode → ℚ
  | .mk w _ _ _ => w

/-- Height accessor of a layout node. -/
def LayoutNode.height : LayoutNode → ℚ
  | .mk _ h _ _ => h

/-- Depth accessor of a layout node. -/
def LayoutNode.depth : LayoutNode → ℚ
  | .mk _ _ d _ => d

/-- Variant accessor of a layout node. -/
def LayoutNode.node : LayoutNode → LayoutVariant
  | .mk _ _ _ v => v

/-- Horizontal kern node: the `kern!(horz: w)` macro of builders.rs,
lines 243–250. -/
def kernH (w : ℚ) : LayoutNode := .mk w 0 0 .Kern

/-- Vertical kern node: the `kern!(vert: h)` macro of builders.rs,
lines 234–241. -/
def kernV (h : ℚ) : LayoutNode := .mk 0 h 0 .Kern

/-- Rule node: the `rule!(width: w, height: h)` macro of builders.rs,
lines 218–231 (depth defaults to zero). -/
def ruleN (w h : ℚ) : LayoutNode := .mk w h 0 .Rule

/-- Vertical-box builder (builders.rs, `VBox`, lines 8–64). -/
structure VBoxB where
  width : ℚ
  height : ℚ
  depth : ℚ
  contents : List LayoutNode
  offset : ℚ

/-- Fresh vertical-box builder (builders.rs `VBox::new`/`Default`). -/
def VBoxB.new : VBoxB := ⟨0, 0, 0, [], 0⟩

/-- Builders.rs `VBox::add_node` (lines 37–41): width maxes, height adds,
child appended. -/
def VBoxB.add_node (b : VBoxB) (n : LayoutNode) : VBoxB :=
  { b with
    width := max b.width n.width
    height := b.height + n.height
    contents := b.contents ++ [n] }

/-- Builders.rs `VBox::insert_node` (lines 31–35): same aggregation as
`add_node` but the child is inserted at the given index. -/
def VBoxB.insert_node (b : VBoxB) (idx : ℕ) (n : LayoutNode) : VBoxB :=
  { b with
    width := max b.width n.width
    height := b.height + n.height
    contents := b.contents.insertIdx idx n }

/-- Builders.rs `VBox::set_offset` (lines 43–45). -/
def VBoxB.set_offset (b : VBoxB) (o : ℚ) : VBoxB := { b with offset := o }

/-- Builders.rs `VBox::build` (lines 47–63): depth is taken from the last
child (if any), then depth and height are reduced by the offset. -/
def VBoxB.build (b : VBoxB) : LayoutNode :=
  let d := match b.contents.getLast? with
    | some n => n.depth
    | none => b.depth
  .mk b.width (b.height - b.offset) (d - b.offset)
    (.VerticalBox b.contents b.offset)

/-- Horizontal-box builder (builders.rs, `HBox`, lines 81–140). -/
structure HBoxB where
  width : ℚ
  height : ℚ
  depth : ℚ
  contents : List LayoutNode
  offset : ℚ
  alignment : Alignment

/-- Fresh horizontal-box builder (builders.rs `HBox::new`/`Default`). -/
def HBoxB.new : HBoxB := ⟨0, 0, 0, [], 0, .Default⟩

/-- Builders.rs `HBox::add_node` (lines 110–115): width adds, height maxes,
depth mins, child appended. -/
def HBoxB.add_node (b : HBoxB) (n : LayoutNode) : HBoxB :=
  { b with
    width := b.width + n.width
    height := max b.height n.height
    depth := min b.depth n.depth
    contents := b.contents ++ [n] }

/-- Builders.rs `HBox::set_offset` (lines 117–119). -/
def HBoxB.set_offset (b : HBoxB) (o : ℚ) : HBoxB := { b with offset := o }

/-- Builders.rs `HBox::set_alignment` (lines 121–123). -/
def HBoxB.set_alignment (b : HBoxB) (a : Alignment) : HBoxB :=
  { b with alignment := a }

/-- Builders.rs `HBox::set_width` (lines 125–127). -/
def HBoxB.set_width (b : HBoxB) (w : ℚ) : HBoxB := { b with width := w }

/-- Builders.rs `HBox::build` (lines 129–139): depth and height are reduced
by the offset. -/
def HBoxB.build (b : HBoxB) : LayoutNode :=
  .mk b.width (b.height - b.offset) (b.depth - b.offset)
    (.HorizontalBox b.contents b.offset b.alignment)

/-- Horizontal box of a list of children: the `hbox!($($node),*)` macro of
builders.rs, lines 211–215. -/
def hboxOf (ns : List LayoutNode) : LayoutNode :=
  (ns.foldl HBoxB.add_node HBoxB.new).build

/-- Vertical box of a list of children: the `vbox!($($node),*)` macro of
builders.rs, lines 74–78. -/
def vboxOf (ns : List LayoutNode) : LayoutNode :=
  (ns.foldl VBoxB.add_node VBoxB.new).build

/-- Vertical box with offset: the `vbox!(offset: o; $($node),*)` macro of
builders.rs, lines 67–72. -/
def vboxOffsetOf (o : ℚ) (ns : List LayoutNode) : LayoutNode :=
  ((ns.foldl VBoxB.add_node VBoxB.new).set_offset o).build

/-- Horizontal box with alignment and width override: the
`hbox!(align: a; width: w; $($node),*)` macro of builders.rs,
lines 201–209. -/
def hboxAlignOf (a : Alignment) (w : ℚ) (ns : List LayoutNode) : LayoutNode :=
  (((ns.foldl HBoxB.add_node HBoxB.new).set_alignment a).set_width w).build

/-- Rust `Vec::resize(n, v)`: truncate to `n` elements or extend with copies
of `v` (used by `Grid::insert` in builders.rs, lines 151–162). -/
def listResize {α : Type} (l : List α) (n : ℕ) (v : α) : List α :=
  if n ≤ l.length then l.take n else l ++ List.replicate (n - l.length) v

/-- Rust `BTreeMap::insert`: map update, replacing the value at an existing
key (used by `Grid::insert`, builders.rs line 167). -/
def assocInsert (l : List ((ℕ × ℕ) × LayoutNode)) (k : ℕ × ℕ)
    (v : LayoutNode) : List ((ℕ × ℕ) × LayoutNode) :=
  (l.filter (fun p => p.1 ≠ k)) ++ [(k, v)]

/-- Grid builder (builders.rs, `Grid`, lines 142–191): children keyed by
(row, column), lazily grown per-row (height, depth) pairs and per-column
widths. -/
structure GridB where
  contents : List ((ℕ × ℕ) × LayoutNode)
  rows : List (ℚ × ℚ)
  columns : List ℚ

/-- Builders.rs `Grid::new` (lines 143–149). -/
def GridB.new : GridB := ⟨[], [], []⟩

/-- Row-table update of `Grid::insert` (builders.rs, lines 151–159): grow the
table to cover the row if needed, then raise the recorded height to the
node's if larger and lower the recorded depth to the node's if smaller. -/
def bumpRow (rows : List (ℚ × ℚ)) (row : ℕ) (n : LayoutNode) :
    List (ℚ × ℚ) :=
  let rows := if rows.length ≤ row then listResize rows (row + 1) (0, 0)
    else rows
  let r := rows.getD row (0, 0)
  let r := if r.1 < n.height then (n.height, r.2) else r
  let r := if n.depth < r.2 then (r.1, n.depth) else r
  rows.set row r

/-- Column-table update of `Grid::insert` (builders.rs, lines 160–165): grow
the table to cover the column if needed, then raise the recorded width to
the node's if larger. -/
def bumpColumn (cols : List ℚ) (column : ℕ) (n : LayoutNode) : List ℚ :=
  let cols := if cols.length ≤ column then listResize cols (column + 1) 0
    else cols
  let c := cols.getD column 0
  let c := if c < n.width then n.width else c
  cols.set column c

/-- Builders.rs `Grid::insert` (lines 150–168): grow the row/column tables as
needed, raise the row height / column width to the node's if larger, lower
the row depth to the node's if smaller, then insert the node at the key. -/
def GridB.insert (g : GridB) (row column : ℕ) (n : LayoutNode) : GridB :=
  { contents := assocInsert g.contents (row, column) n
    rows := bumpRow g.rows row n
    columns := bumpColumn g.columns column n }

/-- Builders.rs `Grid::build` (lines 169–176): width is the sum of column
widths, height the sum of per-row (height − depth), depth zero. -/
def GridB.build (g : GridB) : LayoutNode :=
  .mk (g.columns.sum) ((g.rows.map (fun p => p.1 - p.2)).sum) 0
    (.Grid g.contents g.rows g.columns)

/-- Builders.rs `Grid::x_offsets` (lines 177–183): prefix sums of column
widths. -/
def GridB.x_offsets (g : GridB) : List ℚ :=
  (g.columns.scanl (· + ·) 0).dropLast

/-- Builders.rs `Grid::y_offsets` (lines 184–190): prefix sums of per-row
(height − depth). -/
def GridB.y_offsets (g : GridB) : List ℚ :=
  ((g.rows.map (fun p => p.1 - p.2)).scanl (· + ·) 0).dropLast

/-- Modelled from the spec: the top-level `Layout` accumulator of
layout/mod.rs (absent from src/): an ordered sequence of layout nodes plus
running width/height/depth and an alignment (spec §3), where the running
dimensions follow the horizontal-box combination rules (spec §4.5
"Finalization"). -/
structure Layout where
  contents : List LayoutNode
  width : ℚ
  height : ℚ
  depth : ℚ
  alignment : Alignment

/-- Modelled from the spec: `Layout::new`, the empty accumulator. -/
def Layout.new : Layout := ⟨[], 0, 0, 0, .Default⟩

/-- Modelled from the spec: `Layout::add_node` appends a node, combining the
running dimensions by the horizontal-box rules (width adds, height maxes,
depth mins; spec §3 and §4.5 "Finalization"). -/
def Layout.add_node (l : Layout) (n : LayoutNode) : Layout :=
  { l with
    contents := l.contents ++ [n]
    width := l.width + n.width
    height := max l.height n.height
    depth := min l.depth n.depth }

/-- Modelled from the spec: `Layout::finalize` — the accumulated dimensions
are already those of the whole sequence as one horizontal box (spec §4.5
"Finalization"), so finalization returns the accumulator unchanged. -/
def Layout.finalize (l : Layout) : Layout := l

/-- Modelled from the spec: `Layout::as_node` embeds a finalized layout as a
single horizontal-box node in its parent (spec §3 "Layout"). -/
def Layout.as_node (l : Layout) : LayoutNode :=
  .mk l.width l.height l.depth (.HorizontalBox l.contents 0 l.alignment)

/-- Modelled from the spec: `Layout::centered(width)` widens a layout to the
given width with its contents centered against their natural extent
(spec §4.5, operator limits: "centered to the widest of the three"; the same
pattern is explicit for fractions in engine.rs lines 501–507). -/
def Layout.centered (l : Layout) (w : ℚ) : Layout :=
  { l with alignment := .Centered l.width, width := w }

/-- Glyph metrics returned by the font provider (font module, absent from
src/; fields per spec §6: height, depth, advance width, italic correction,
attachment point — plus unicode, glyph id and bounding box as used by
engine.rs add_accent). -/
structure Glyph where
  unicode : ℕ
  gid : ℕ
  height : ℚ
  depth : ℚ
  advance : ℚ
  italics : ℚ
  attachment : ℚ
  bbox : ℚ × ℚ × ℚ × ℚ
deriving DecidableEq, Repr

/-- Direction of a constructed variant glyph (font module, absent from src/;
variants per src/layout/convert.rs lines 56–84). -/
inductive Direction where
  | Vertical
  | Horizontal
deriving DecidableEq, Repr

/-- Part of a constructable variant glyph: glyph id plus declared overlap
(font module, absent from src/; fields per uses in convert.rs). -/
structure GlyphInstruction where
  gid : ℕ
  overlap : ℚ
deriving DecidableEq, Repr

/-- Variant glyph: a single replacement or a constructable stack of parts
(spec §6 and glossary; the type lives in the font module, absent from src/.
Replacement carries the resolved glyph, whose unicode and bounding box
engine.rs add_accent reads). -/
inductive VariantGlyph where
  | Replacement (g : Glyph)
  | Constructable (dir : Direction) (parts : List GlyphInstruction)
deriving DecidableEq, Repr

/-- Font context: the read-only font-metrics provider of spec §6 plus the
atom-pair spacing table of layout/spacing.rs, both absent from src/ and
therefore parameters of the embedding.  Named typographic constants are in
font units unless noted. -/
structure FontCtx where
  units_per_em : ℚ
  script_percent_scale_down : ℚ
  script_script_percent_scale_down : ℚ
  glyph_metrics : ℕ → Glyph
  glyph_from_gid : ℕ → Glyph
  vert_variant : Glyph → ℚ → VariantGlyph
  horz_variant : Glyph → ℚ → VariantGlyph
  superscript_kern : Glyph → Glyph → ℚ → ℚ
  subscript_kern : Glyph → Glyph → ℚ → ℚ
  atom_spacing : AtomType → AtomType → Style → Spacing
  spacing_to_unit : Spacing → AnyUnit
  axis_height : ℚ
  accent_base_height : ℚ
  display_operator_min_height : ℚ
  superscript_shift_up : ℚ
  superscript_shift_up_cramped : ℚ
  superscript_baseline_drop_max : ℚ
  superscript_bottom_min : ℚ
  subscript_shift_down : ℚ
  subscript_top_max : ℚ
  subscript_baseline_drop_min : ℚ
  sub_superscript_gap_min : ℚ
  upper_limit_baseline_rise_min : ℚ
  upper_limit_gap_min : ℚ
  lower_limit_baseline_drop_min : ℚ
  lower_limit_gap_min : ℚ
  fraction_rule_thickness : ℚ
  fraction_numerator_display_style_shift_up : ℚ
  fraction_denominator_display_style_shift_down : ℚ
  fraction_num_display_style_gap_min : ℚ
  fraction_denom_display_style_gap_min : ℚ
  fraction_numerator_shift_up : ℚ
  fraction_denominator_shift_down : ℚ
  fraction_numerator_gap_min : ℚ
  fraction_denominator_gap_min : ℚ
  delimited_sub_formula_min_height : ℚ
  delimiter_factor : ℚ
  delimiter_short_fall : ℚ
  null_delimiter_space : ℚ
  radical_display_style_vertical_gap : ℚ
  radical_vertical_gap : ℚ
  radical_rule_thickness : ℚ
  radical_extra_ascender : ℚ

/-- Layout settings: current style and base font size (spec §3; the struct
lives in layout/mod.rs, absent from src/, its fields fixed by uses in
engine.rs and convert.rs).  The font context is passed alongside. -/
structure LayoutSettings where
  style : Style
  font_size : ℚ
deriving DecidableEq, Repr

/-- Style-driven scale factor (src/layout/convert.rs, `scale_factor`,
lines 92–108): 1 for display and text styles, the script
percent-scale-down constant for script styles, the script-script constant
for script-script styles. -/
def scale_factor (ctx : FontCtx) (cfg : LayoutSettings) : ℚ :=
  match cfg.style with
  | .Display | .DisplayCramped | .Text | .TextCramped => 1
  | .Script | .ScriptCramped => ctx.script_percent_scale_down
  | .ScriptScript | .ScriptScriptCramped => ctx.script_script_percent_scale_down

/-- Font-unit length scaled to pixels (src/layout/convert.rs,
`scale_font_unit` composed with the scale factor, lines 109–111 and
120–124): divide by units-per-em, multiply by font size and scale factor. -/
def scaledFont (ctx : FontCtx) (cfg : LayoutSettings) (x : ℚ) : ℚ :=
  x / ctx.units_per_em * cfg.font_size * scale_factor ctx cfg

/-- Pixel length scaled by the style factor (src/layout/convert.rs,
lines 126–130). -/
def scaledPx (ctx : FontCtx) (cfg : LayoutSettings) (x : ℚ) : ℚ :=
  x * scale_factor ctx cfg

/-- Unit-tagged length scaled to pixels (src/layout/convert.rs, `Scaled for
Unit`, lines 136–144): em lengths multiply by font size, then both by the
scale factor. -/
def scaledUnit (ctx : FontCtx) (cfg : LayoutSettings) : AnyUnit → ℚ
  | .Em v => v * cfg.font_size * scale_factor ctx cfg
  | .Px v => v * scale_factor ctx cfg

/-- Glyph-to-layout-node conversion (src/layout/convert.rs, `AsLayoutNode
for Glyph`, lines 18–34): height/depth/advance scaled from font units, glyph
payload with pixel size of one em, scaled attachment and italics. -/
def Glyph.as_layout (ctx : FontCtx) (cfg : LayoutSettings) (g : Glyph) :
    LayoutNode :=
  .mk (scaledFont ctx cfg g.advance) (scaledFont ctx cfg g.height)
    (scaledFont ctx cfg g.depth)
    (.Glyph
      { unicode := g.unicode
        gid := g.gid
        size := cfg.font_size * scale_factor ctx cfg
        attachment := scaledFont ctx cfg g.attachment
        italics := scaledFont ctx cfg g.italics
        offset := 0 })

/-- Rule-to-layout-node conversion (src/layout/convert.rs, `AsLayoutNode for
Rule`, lines 36–45): scaled width and height, zero depth. -/
def ruleAsLayout (ctx : FontCtx) (cfg : LayoutSettings) (w h : AnyUnit) :
    LayoutNode :=
  .mk (scaledUnit ctx cfg w) (scaledUnit ctx cfg h) 0 .Rule

/-- Variant-glyph-to-layout-node conversion (src/layout/convert.rs,
`AsLayoutNode for VariantGlyph`, lines 47–88): a replacement recurses into
the plain-glyph case; a vertical assembly inserts each part at the front of
a vertical box, appending after each overlapping part a negative kern of the
declared overlap plus the part's depth; a horizontal assembly appends a
negative overlap kern before each overlapping part.  The fallible
`glyph_from_gid` of the source only propagates font errors; the provider is
modelled total (font module absent from src/). -/
def VariantGlyph.as_layout (ctx : FontCtx) (cfg : LayoutSettings) :
    VariantGlyph → LayoutNode
  | .Replacement g => (ctx.glyph_from_gid g.gid).as_layout ctx cfg
  | .Constructable .Vertical parts =>
    (parts.foldl
      (fun b instr =>
        let glyph := ctx.glyph_from_gid instr.gid
        let b := b.insert_node 0 (glyph.as_layout ctx cfg)
        if instr.overlap ≠ 0 then
          b.add_node (kernV (-(scaledFont ctx cfg (instr.overlap + glyph.depth))))
        else b)
      VBoxB.new).build
  | .Constructable .Horizontal parts =>
    (parts.foldl
      (fun b instr =>
        let glyph := ctx.glyph_from_gid instr.gid
        let b := if instr.overlap ≠ 0 then
            b.add_node (kernH (-(scaledFont ctx cfg instr.overlap)))
          else b
        b.add_node (glyph.as_layout ctx cfg))
      HBoxB.new).build

/-- Parse symbol: unicode codepoint plus atom type (parser/symbols.rs is
absent from src/; fields fixed by uses in engine.rs and nodes.rs). -/
structure Symbol where
  unicode : ℕ
  atom_type : AtomType
deriving DecidableEq, Repr

/-- Bar-thickness choice of a generalized fraction (src/parser/nodes.rs,
lines 252–260). -/
inductive BarThickness where
  | Default
  | NoBar
  | Unit (u : AnyUnit)
deriving DecidableEq, Repr

/-- Syntax nodes (src/parser/nodes.rs `ParseNode`, with the composite-node
shapes engine.rs actually consumes: scripts hold optional single nodes, an
accent holds a single nucleus, a delimited group holds left/right symbols —
engine.rs lines 168, 227, 244–259, 287–299). -/
inductive ParseNode where
  | Symbol (sym : Symbol)
  | Delimited (left right : Symbol) (inner : List ParseNode)
  | Radical (inner : List ParseNode)
  | GenFraction (numerator denominator : List ParseNode)
      (bar_thickness : BarThickness) (left right : Option Symbol)
  | Scripts (base superscript subscript : Option ParseNode)
  | Rule (width height : AnyUnit)
  | Kerning (k : AnyUnit)
  | Accent (symbol : Symbol) (nucleus : ParseNode)
  | Style (s : Style)
  | PlainText (text : String)
  | AtomChange (at_ : AtomType) (inner : List ParseNode)
  | Color (color : RGBA) (inner : List ParseNode)
  | Group (inner : List ParseNode)
  | Stack (at_ : AtomType) (lines : List (List ParseNode))
  | Array (rows : List (List (List ParseNode)))

/-- Atom type of a parse node (src/parser/nodes.rs, `atom_type`,
lines 305–335). -/
def ParseNode.atom_type : ParseNode → AtomType
  | .Symbol sym => sym.atom_type
  | .Delimited _ _ _ => .Inner
  | .Radical _ => .Alpha
  | .PlainText _ => .Alpha
  | .GenFraction _ _ _ _ _ => .Inner
  | .Group _ => .Alpha
  | .Scripts (some b) _ _ => b.atom_type
  | .Scripts none _ _ => .Alpha
  | .Rule _ _ => .Alpha
  | .Kerning _ => .Transparent
  | .Accent _ nucleus => nucleus.atom_type
  | .Style _ => .Transparent
  | .AtomChange at_ _ => at_
  | .Color _ (first :: _) => first.atom_type
  | .Color _ [] => .Alpha
  | .Array _ => .Inner
  | .Stack at_ _ => at_

mutual

/-- Singleton symbol extraction from a parse node (src/parser/nodes.rs,
`ParseNode::is_symbol`, lines 276–286). -/
def ParseNode.is_symbol : ParseNode → Option Symbol
  | .Symbol sym => some sym
  | .Scripts (some b) _ _ => b.is_symbol
  | .Accent _ nucleus => nucleus.is_symbol
  | .AtomChange _ inner => listIsSymbol inner
  | .Color _ inner => listIsSymbol inner
  | _ => none

/-- Singleton symbol extraction from a node list (src/parser/nodes.rs,
free function `is_symbol`, lines 339–345). -/
def listIsSymbol : List ParseNode → Option Symbol
  | [x] => x.is_symbol
  | _ => none

end

/-- Singleton glyph extraction from a layout node (engine.rs, `IsSymbol for
LayoutNode`, lines 646–671): descends through single-child horizontal boxes,
vertical boxes and color regions. -/
def LayoutNode.is_symbol : LayoutNode → Option LayoutGlyph
  | .mk _ _ _ (.Glyph g) => some g
  | .mk _ _ _ (.HorizontalBox [x] _ _) => x.is_symbol
  | .mk _ _ _ (.VerticalBox [x] _) => x.is_symbol
  | .mk _ _ _ (.Color _ [x]) => x.is_symbol
  | _ => none

/-- Singleton glyph extraction from a layout (engine.rs, `IsSymbol for
Layout`, lines 617–644): a one-node layout whose node is (transitively) a
single glyph. -/
def Layout.is_symbol (l : Layout) : Option LayoutGlyph :=
  match l.contents with
  | [x] => x.is_symbol
  | _ => none

/-- Modelled from the spec: `LayoutNode::centered(axis)` (layout/mod.rs,
absent from src/) wraps the node in a vertical box whose baseline offset
shifts the node's vertical center onto the math axis (spec §4.5, delimited
group: "vertically center them about the axis"; the identical shift
expression is explicit in engine.rs add_largeop, line 133). -/
def LayoutNode.centered (n : LayoutNode) (axis : ℚ) : LayoutNode :=
  vboxOffsetOf ((n.height + n.depth) / 2 - axis) [n]

/-- Spacing-kern insertion of the engine loop (engine.rs, lines 68–72): look
up the spacing category for the previous and current atom at the current
style; if non-none, a horizontal kern of the category's scaled width. -/
def spacingNodes (ctx : FontCtx) (cfg : LayoutSettings)
    (prev current : AtomType) : List LayoutNode :=
  let sp := ctx.atom_spacing prev current cfg.style
  if sp ≠ Spacing.NoSpace then
    [kernH (scaledUnit ctx cfg (ctx.spacing_to_unit sp))]
  else []

/-- Large-operator handling (engine.rs, `add_largeop`, lines 125–139): above
Text style, the glyph's vertical variant at the display minimum height,
wrapped in a vertical box whose offset is half the sum of the variant's
height and depth minus the scaled axis height; otherwise the plain glyph. -/
def add_largeop (ctx : FontCtx) (cfg : LayoutSettings) (sym : Symbol) :
    List LayoutNode :=
  let glyph := ctx.glyph_metrics sym.unicode
  if cfg.style.sgt .Text then
    let size := ctx.display_operator_min_height
    let axis_offset := scaledFont ctx cfg ctx.axis_height
    let largeop := (ctx.vert_variant glyph size).as_layout ctx cfg
    let shift := (largeop.height + largeop.depth) / 2 - axis_offset
    [vboxOffsetOf shift [largeop]]
  else
    [glyph.as_layout ctx cfg]

/-- Symbol dispatch (engine.rs, `add_symbol`, lines 114–123): operators get
large-operator handling, other symbols become a scaled glyph node. -/
def add_symbol (ctx : FontCtx) (cfg : LayoutSettings) (sym : Symbol) :
    List LayoutNode :=
  match sym.atom_type with
  | .Operator _ => add_largeop ctx cfg sym
  | _ => [(ctx.glyph_metrics sym.unicode).as_layout ctx cfg]

/-- Final symmetric gap adjustment of `add_scripts` (engine.rs,
lines 395–405): when both scripts are present and the superscript's bottom
clears the subscript's top by less than the minimum gap, both adjustments
are inflated by half the deficit. -/
def sub_sup_gap_fix (gap_min adjust_up adjust_down sup_depth sub_height : ℚ)
    (both_present : Bool) : ℚ × ℚ :=
  if both_present then
    let sup_bot := adjust_up + sup_depth
    let sub_top := sub_height - adjust_down
    if sup_bot - sub_top < gap_min then
      let adjust := (gap_min - sup_bot + sub_top) / 2
      (adjust_up + adjust, adjust_down + adjust)
    else (adjust_up, adjust_down)
  else (adjust_up, adjust_down)

/-- Script-position computation of `add_scripts` (engine.rs, lines 310–405),
on the already laid-out base/superscript/subscript: returns
(adjust_up, adjust_down, sup_kern, sub_kern) after the default shifts, the
baseline-drop and clearance maxima, the symbol kerning lookups, and the
final symmetric minimum-gap adjustment. -/
def scripts_adjustments (ctx : FontCtx) (cfg : LayoutSettings)
    (sbase ssup ssub : Option ParseNode) (base sup sub : Layout) :
    ℚ × ℚ × ℚ × ℚ :=
  let up0 : ℚ × ℚ × ℚ :=
    match ssup with
    | none => (0, 0, 0)
    | some _ =>
      let adjust_up := scaledFont ctx cfg
        (if cfg.style.is_cramped then ctx.superscript_shift_up_cramped
          else ctx.superscript_shift_up)
      let hk : ℚ × ℚ × ℚ :=
        match sbase with
        | some (.Accent _ nucleus) =>
          (match nucleus.is_symbol with
            | some sym =>
              (scaledFont ctx cfg (ctx.glyph_metrics sym.unicode).height, 0, 0)
            | none => (base.height, 0, 0))
        | some b =>
          (match base.is_symbol with
            | some base_sym =>
              (match b.atom_type with
                | .Operator _ => (base.height, 0, -1 * base_sym.italics)
                | _ =>
                  match sup.is_symbol with
                  | some sup_sym =>
                    let bg := ctx.glyph_metrics base_sym.unicode
                    let sg := ctx.glyph_metrics sup_sym.unicode
                    let kern := scaledFont ctx cfg (ctx.superscript_kern bg sg
                      (adjust_up / cfg.font_size * ctx.units_per_em))
                    (base.height, base_sym.italics + kern, 0)
                  | none => (base.height, base_sym.italics, 0))
            | none => (base.height, 0, 0))
        | none => (base.height, 0, 0)
      let drop_max := scaledFont ctx cfg ctx.superscript_baseline_drop_max
      (max (max adjust_up (hk.1 - drop_max))
        (scaledFont ctx cfg ctx.superscript_bottom_min - sup.depth),
        hk.2.1, hk.2.2)
  let adjust_up := up0.1
  let sup_kern := up0.2.1
  let down0 : ℚ × ℚ :=
    match ssub with
    | none => (0, up0.2.2)
    | some _ =>
      let adjust_down := scaledFont ctx cfg ctx.subscript_shift_down
      let depth := -1 * base.depth
      let drop_min := scaledFont ctx cfg ctx.subscript_baseline_drop_min
      let adjust_down := max (max adjust_down
        (sub.height - scaledFont ctx cfg ctx.subscript_top_max))
        (drop_min + depth)
      let sub_kern :=
        match sbase, sub.is_symbol, base.is_symbol with
        | some _, some ssym, some bsym =>
          up0.2.2 + scaledFont ctx cfg (ctx.subscript_kern
            (ctx.glyph_metrics bsym.unicode) (ctx.glyph_metrics ssym.unicode)
            (adjust_down / cfg.font_size * ctx.units_per_em))
        | _, _, _ => up0.2.2
      (adjust_down, sub_kern)
  let adjust_down := down0.1
  let sub_kern := down0.2
  let fixed : ℚ × ℚ :=
    sub_sup_gap_fix (scaledFont ctx cfg ctx.sub_superscript_gap_min)
      adjust_up adjust_down sup.depth sub.height
      (!sub.contents.isEmpty && !sup.contents.isEmpty)
  (fixed.1, fixed.2, sup_kern, sub_kern)

/-- Script assembly of `add_scripts` for a non-limits base (engine.rs,
lines 407–432), on the already laid-out layouts: superscript (with its
horizontal kern) above a corrected vertical kern above the subscript (with
its horizontal kern), in a vertical box offset by `adjust_down`, appended
after the base. -/
def add_scripts_assemble (ctx : FontCtx) (cfg : LayoutSettings)
    (sbase ssup ssub : Option ParseNode) (base sup sub : Layout) :
    List LayoutNode :=
  let q := scripts_adjustments ctx cfg sbase ssup ssub base sup sub
  let adjust_up := q.1
  let adjust_down := q.2.1
  let sup_kern := q.2.2.1
  let sub_kern := q.2.2.2
  let c := VBoxB.new
  let c :=
    if !sup.contents.isEmpty then
      let sup' := if sup_kern ≠ 0 then
          { sup with contents := kernH sup_kern :: sup.contents
                     width := sup.width + sup_kern }
        else sup
      let corrected_adjust := adjust_up - sub.height + adjust_down
      (c.add_node sup'.as_node).add_node (kernV corrected_adjust)
    else c
  let c := c.set_offset adjust_down
  let c :=
    if !sub.contents.isEmpty then
      let sub' := if sub_kern ≠ 0 then
          { sub with contents := kernH sub_kern :: sub.contents
                     width := sub.width + sub_kern }
        else sub
      c.add_node sub'.as_node
    else c
  [base.as_node, c.build]

/-- Operator-limits script stacking (engine.rs, `add_operator_limits`,
lines 435–489): superscript, base and subscript stacked vertically, centered
to the widest, the scripts offset horizontally by half the base's italic
correction in opposite directions; vertical kerns satisfy the limit gap
minima; the whole box is offset by subscript height plus its kern. -/
def add_operator_limits (ctx : FontCtx) (cfg : LayoutSettings)
    (base sup sub : Layout) : List LayoutNode :=
  let delta := match base.is_symbol with
    | some gly => gly.italics
    | none => 0
  let sup_kern := max (scaledFont ctx cfg ctx.upper_limit_baseline_rise_min)
    (scaledFont ctx cfg ctx.upper_limit_gap_min - sup.depth)
  let sub_kern := max
    (scaledFont ctx cfg ctx.lower_limit_baseline_drop_min - sub.height - base.depth)
    (scaledFont ctx cfg ctx.lower_limit_gap_min - base.depth)
  let offset := sub.height + sub_kern
  let width := max (max base.width (sub.width + delta / 2))
    (sup.width + delta / 2)
  let sup_width := sup.width
  let sub_width := sub.width
  [vboxOffsetOf offset
    [hboxAlignOf (.Centered sup_width) width [kernH (delta / 2), sup.as_node],
      kernV sup_kern,
      (base.centered width).as_node,
      kernV sub_kern,
      hboxAlignOf (.Centered sub_width) width
        [kernH (-1 * delta / 2), sub.as_node]]]

/-- Fraction bar thickness (engine.rs, lines 492–496): the named default,
zero, or an explicit scaled override. -/
def frac_bar (ctx : FontCtx) (cfg : LayoutSettings) : BarThickness → ℚ
  | .Default => scaledFont ctx cfg ctx.fraction_rule_thickness
  | .NoBar => 0
  | .Unit u => scaledUnit ctx cfg u

/-- Fraction parameter-set selection (engine.rs, lines 518–528): shift-up,
shift-down, numerator gap minimum and denominator gap minimum, from the
display-style constants when the style is above Text and from the text-style
constants otherwise. -/
def frac_params (ctx : FontCtx) (cfg : LayoutSettings) : ℚ × ℚ × ℚ × ℚ :=
  if cfg.style.sgt .Text then
    (scaledFont ctx cfg ctx.fraction_numerator_display_style_shift_up,
      scaledFont ctx cfg ctx.fraction_denominator_display_style_shift_down,
      scaledFont ctx cfg ctx.fraction_num_display_style_gap_min,
      scaledFont ctx cfg ctx.fraction_denom_display_style_gap_min)
  else
    (scaledFont ctx cfg ctx.fraction_numerator_shift_up,
      scaledFont ctx cfg ctx.fraction_denominator_shift_down,
      scaledFont ctx cfg ctx.fraction_numerator_gap_min,
      scaledFont ctx cfg ctx.fraction_denominator_gap_min)

/-- Numerator-to-bar kern (engine.rs, line 530): the requested shift relative
to the axis and half-bar, raised to at least the minimum gap above the
numerator's depth. -/
def frac_kern_num (shift_up axis bar gap_num numer_depth : ℚ) : ℚ :=
  max (shift_up - axis - bar / 2) (gap_num - numer_depth)

/-- Bar-to-denominator kern (engine.rs, line 531): the requested shift
relative to the axis, denominator height and half-bar, raised to at least
the minimum gap. -/
def frac_kern_den (shift_down axis bar gap_denom denom_height : ℚ) : ℚ :=
  max (shift_down + axis - denom_height - bar / 2) gap_denom

/-- Fraction assembly of `add_frac` (engine.rs, lines 501–545), on the
already laid-out numerator and denominator: the narrower side is centered to
the width of the wider; numerator, numerator kern, bar rule, denominator
kern and denominator are stacked in a vertical box whose offset places the
bar's center on the axis; null-delimiter-space kerns flank the result. -/
def add_frac_assemble (ctx : FontCtx) (cfg : LayoutSettings) (bar : ℚ)
    (n d : Layout) : List LayoutNode :=
  let nd : Layout × Layout :=
    if d.width < n.width then
      (n, { d with alignment := .Centered d.width, width := n.width })
    else
      ({ n with alignment := .Centered n.width, width := d.width }, d)
  let numer := nd.1.as_node
  let denom := nd.2.as_node
  let axis := scaledFont ctx cfg ctx.axis_height
  let p := frac_params ctx cfg
  let kern_num := frac_kern_num p.1 axis bar p.2.2.1 numer.depth
  let kern_den := frac_kern_den p.2.1 axis bar p.2.2.2 denom.height
  let offset := denom.height + kern_den + bar / 2 - axis
  let width := numer.width
  let inner := vboxOffsetOf offset
    [numer, kernV kern_num, ruleN width bar, kernV kern_den, denom]
  [kernH ctx.null_delimiter_space, inner, kernH ctx.null_delimiter_space]

/-- Radical assembly of `add_radical` (engine.rs, lines 571–610), on the
already laid-out (cramped) contents: the radical glyph's vertical variant
sized to the contents plus the style-dependent gap and extra ascender (in
font units, at 1000 units per em as hard-coded in the source), offset so the
glyph's center aligns with the contents' combined center, next to a vertical
box of top padding, vinculum rule, kern and contents. -/
def add_radical_assemble (ctx : FontCtx) (cfg : LayoutSettings)
    (contents : LayoutNode) : List LayoutNode :=
  let sqrt := ctx.glyph_metrics 0x221A
  let gap0 := if cfg.style.sge .Display then ctx.radical_display_style_vertical_gap
    else ctx.radical_vertical_gap
  let size := (contents.height - contents.depth) / cfg.font_size * 1000
    + gap0 + ctx.radical_extra_ascender
  let gap := scaledFont ctx cfg gap0
  let rule_thickness := scaledFont ctx cfg ctx.radical_rule_thickness
  let glyph := (ctx.vert_variant sqrt size).as_layout ctx cfg
  let inner_center := (gap + contents.height + contents.depth + rule_thickness) / 2
  let sym_center := (glyph.height + glyph.depth) / 2
  let offset := sym_center - inner_center
  let top_padding := scaledFont ctx cfg ctx.radical_extra_ascender
    - scaledFont ctx cfg ctx.radical_rule_thickness
  let kerning := (glyph.height - offset)
    - scaledFont ctx cfg ctx.radical_extra_ascender
    - contents.height
  [vboxOffsetOf offset [glyph],
    vboxOf [kernV top_padding, ruleN contents.width rule_thickness,
      kernV kerning, contents]]

/-- Delimited-group assembly of `add_delimited` (engine.rs, lines 226–279),
on the already laid-out inner node: if the inner extent (in font units)
exceeds half the minimum-height threshold, left/right delimiter glyphs are
selected as vertical variants at the computed clearance and centered on the
axis; otherwise the plain glyphs are used; a period codepoint (46) is
replaced by a null-delimiter-space kern. -/
def add_delimited_assemble (ctx : FontCtx) (cfg : LayoutSettings)
    (left right : Symbol) (inner : LayoutNode) : List LayoutNode :=
  let height := inner.height / cfg.font_size * ctx.units_per_em
  let depth := inner.depth / cfg.font_size * ctx.units_per_em
  if ctx.delimited_sub_formula_min_height / 2 < max height (-1 * depth) then
    let axis0 := ctx.axis_height
    let clearance := 2 * max (height - axis0) (axis0 - depth)
    let clearance := max (ctx.delimiter_factor * clearance)
      (height - depth - ctx.delimiter_short_fall)
    let axis := scaledFont ctx cfg ctx.axis_height
    let left_node := if left.unicode = 46 then kernH ctx.null_delimiter_space
      else ((ctx.vert_variant (ctx.glyph_metrics left.unicode)
        clearance).as_layout ctx cfg).centered axis
    let right_node := if right.unicode = 46 then kernH ctx.null_delimiter_space
      else ((ctx.vert_variant (ctx.glyph_metrics right.unicode)
        clearance).as_layout ctx cfg).centered axis
    [left_node, inner, right_node]
  else
    let left_node := if left.unicode = 46 then kernH ctx.null_delimiter_space
      else (ctx.glyph_metrics left.unicode).as_layout ctx cfg
    let right_node := if right.unicode = 46 then kernH ctx.null_delimiter_space
      else (ctx.glyph_metrics right.unicode).as_layout ctx cfg
    [left_node, inner, right_node]

/-- Modelled from the spec: `Style::font_scale` (layout/mod.rs, absent from
src/), the per-style scale factor used by engine.rs add_accent line 171;
agrees with `scale_factor` of convert.rs (spec §4.1). -/
def Style.font_scale (s : Style) (ctx : FontCtx) : ℚ :=
  match s with
  | .Display | .DisplayCramped | .Text | .TextCramped => 1
  | .Script | .ScriptCramped => ctx.script_percent_scale_down
  | .ScriptScript | .ScriptScriptCramped => ctx.script_script_percent_scale_down

/-- Accent assembly of `add_accent` (engine.rs, lines 168–223), on the
already laid-out (cramped) nucleus: the accent's horizontal variant sized to
the base width (converted to font units at the cramped scale), attachment
offsets for base and accent, the accent row kerned by their difference, a
vertical drop kern capped at the accent base height, and the base, stacked
with no baseline offset. -/
def add_accent_assemble (ctx : FontCtx) (cfg : LayoutSettings)
    (acc_sym : Symbol) (base : Layout) : List LayoutNode :=
  let accent_variant := ctx.horz_variant (ctx.glyph_metrics acc_sym.unicode)
    (base.width / (cfg.style.cramped.font_scale ctx) / cfg.font_size
      * ctx.units_per_em)
  let accent := accent_variant.as_layout ctx cfg
  let base_offset :=
    match base.contents with
    | [single] =>
      (match single.is_symbol with
        | some sym =>
          let glyph := ctx.glyph_metrics sym.unicode
          if glyph.attachment ≠ 0 then scaledFont ctx cfg glyph.attachment
          else scaledFont ctx cfg ((glyph.advance + glyph.italics) / 2)
        | none => base.width / 2)
    | _ => base.width / 2
  let acc_offset :=
    match accent_variant with
    | .Replacement g' =>
      let glyph := ctx.glyph_metrics g'.unicode
      if glyph.attachment ≠ 0 then scaledFont ctx cfg glyph.attachment
      else scaledFont ctx cfg ((g'.bbox.2.2.1 + g'.bbox.1) / 2)
    | .Constructable _ _ => accent.width / 2
  let delta := -1 * min base.height (scaledFont ctx cfg ctx.accent_base_height)
  [vboxOf [hboxOf [kernH (base_offset - acc_offset), accent],
    kernV delta, base.as_node]]

/-- Helper bound for the termination measure of the engine recursion. -/
theorem one_le_sizeOf_optionPN (o : Option ParseNode) : 1 ≤ sizeOf o := by
  cases o <;> simp

/-- Helper bound for the termination measure of the engine recursion. -/
theorem two_le_sizeOf_symbol (s : Symbol) : 2 ≤ sizeOf s := by
  obtain ⟨u, a⟩ := s
  have h : 1 ≤ sizeOf a := by cases a <;> simp
  simp only [Symbol.mk.sizeOf_spec]
  omega

mutual

/-- The loop body of `layout_recurse` (engine.rs, lines 40–109) as list
recursion: peek the next atom (or the parent's trailing context), reclassify
a Binary current atom, insert the spacing kern, dispatch on the node kind,
and continue with the possibly updated settings and the current atom as the
new previous atom.  Returns the flat list of layout nodes added to the
accumulator. -/
def layoutAux (ctx : FontCtx) : List ParseNode → LayoutSettings →
    AtomType → AtomType → List LayoutNode
  | [], _, _, _ => []
  | n :: rest, cfg, prev, parent_next =>
    let next := match rest with
      | [] => parent_next
      | m :: _ => m.atom_type
    let current := reclassify prev next n.atom_type
    let sp := spacingNodes ctx cfg prev current
    let step := dispatch ctx n cfg next
    sp ++ step.1 ++ layoutAux ctx rest step.2 current parent_next
termination_by nodes _ _ _ => 100 * sizeOf nodes
decreasing_by
  all_goals simp_wf
  all_goals omega

/-- Engine entry for one nesting level (engine.rs, `layout_recurse`,
lines 33–112): the processed nodes accumulated into a `Layout` and
finalized. -/
def layout_recurse (ctx : FontCtx) (nodes : List ParseNode)
    (cfg : LayoutSettings) (parent_next : AtomType) : Layout :=
  ((layoutAux ctx nodes cfg .Transparent parent_next).foldl
    Layout.add_node Layout.new).finalize
termination_by 100 * sizeOf nodes + 1
decreasing_by
  all_goals simp_wf
  all_goals omega

/-- Per-node-kind dispatch of `layout_recurse` (engine.rs, lines 78–108):
the nodes each arm adds to the accumulator, paired with the settings used
for the following siblings (only a style directive changes them; the
catch-all arm for PlainText/Stack/Array only prints a warning and adds
nothing). -/
def dispatch (ctx : FontCtx) (n : ParseNode) (cfg : LayoutSettings)
    (next : AtomType) : List LayoutNode × LayoutSettings :=
  match n with
  | .Symbol sym => (add_symbol ctx cfg sym, cfg)
  | .Scripts base sup sub => (add_scripts ctx base sup sub cfg, cfg)
  | .Radical inner => (add_radical ctx inner cfg, cfg)
  | .Delimited left right inner => (add_delimited ctx left right inner cfg, cfg)
  | .Accent sym nucleus => (add_accent ctx sym nucleus cfg, cfg)
  | .GenFraction num den bt _ _ => (add_frac ctx num den bt cfg, cfg)
  | .Group gp => ([(layout_recurse ctx gp cfg .Transparent).as_node], cfg)
  | .Rule w h => ([ruleAsLayout ctx cfg w h], cfg)
  | .Kerning k => ([kernH (scaledUnit ctx cfg k)], cfg)
  | .Style s => ([], { cfg with style := s })
  | .Color clr inner =>
    let l := layout_recurse ctx inner cfg next
    ([.mk l.width l.height l.depth (.Color clr l.contents)], cfg)
  | .AtomChange at_ inner => (add_atom_change ctx at_ inner cfg, cfg)
  | .PlainText _ => ([], cfg)
  | .Stack _ _ => ([], cfg)
  | .Array _ => ([], cfg)
termination_by 100 * sizeOf n + 50
decreasing_by
  all_goals simp_wf
  all_goals omega

/-- Script attachment (engine.rs, `add_scripts`, lines 282–433): lay out the
base and the scripts in their derived styles; an Operator(limits) base takes
the operator-limits path, otherwise positions are computed by
`scripts_adjustments` and assembled by `add_scripts_assemble`. -/
def add_scripts (ctx : FontCtx) (sbase ssup ssub : Option ParseNode)
    (cfg : LayoutSettings) : List LayoutNode :=
  let base := match sbase with
    | some b => layout_recurse ctx [b] cfg .Transparent
    | none => Layout.new
  let sup := match ssup with
    | some b => layout_recurse ctx [b]
        { cfg with style := cfg.style.superscript_variant } .Transparent
    | none => Layout.new
  let sub := match ssub with
    | some b => layout_recurse ctx [b]
        { cfg with style := cfg.style.subscript_variant } .Transparent
    | none => Layout.new
  match sbase with
  | some b =>
    if b.atom_type = .Operator true then
      add_operator_limits ctx cfg base sup sub
    else
      add_scripts_assemble ctx cfg sbase ssup ssub base sup sub
  | none => add_scripts_assemble ctx cfg sbase ssup ssub base sup sub
termination_by 100 * (sizeOf sbase + sizeOf ssup + sizeOf ssub) + 10
decreasing_by
  all_goals simp_wf
  all_goals
    first
    | (have h2 := one_le_sizeOf_optionPN ssup
       have h3 := one_le_sizeOf_optionPN ssub
       omega)
    | (have h1 := one_le_sizeOf_optionPN sbase
       have h3 := one_le_sizeOf_optionPN ssub
       omega)
    | (have h1 := one_le_sizeOf_optionPN sbase
       have h2 := one_le_sizeOf_optionPN ssup
       omega)
    | omega

/-- Generalized fraction (engine.rs, `add_frac`, lines 491–546): bar
thickness, numerator and denominator laid out in their derived styles, then
assembled by `add_frac_assemble`. -/
def add_frac (ctx : FontCtx) (num den : List ParseNode) (bt : BarThickness)
    (cfg : LayoutSettings) : List LayoutNode :=
  let bar := frac_bar ctx cfg bt
  let n := layout_recurse ctx num
    { cfg with style := cfg.style.numerator } .Transparent
  let d := layout_recurse ctx den
    { cfg with style := cfg.style.denominator } .Transparent
  add_frac_assemble ctx cfg bar n d
termination_by 100 * (sizeOf num + sizeOf den) + 10
decreasing_by
  all_goals simp_wf
  all_goals omega

/-- Radical (engine.rs, `add_radical`, lines 571–611): lay out the inner
content in cramped style, then assemble via `add_radical_assemble`. -/
def add_radical (ctx : FontCtx) (inner : List ParseNode)
    (cfg : LayoutSettings) : List LayoutNode :=
  let contents := (layout_recurse ctx inner
    { cfg with style := cfg.style.cramped } .Transparent).as_node
  add_radical_assemble ctx cfg contents
termination_by 100 * sizeOf inner + 10
decreasing_by
  all_goals simp_wf
  all_goals omega

/-- Delimited group (engine.rs, `add_delimited`, lines 226–280): lay out the
inner content at the current style, then assemble via
`add_delimited_assemble`. -/
def add_delimited (ctx : FontCtx) (left right : Symbol)
    (inner : List ParseNode) (cfg : LayoutSettings) : List LayoutNode :=
  let node := (layout_recurse ctx inner cfg .Transparent).as_node
  add_delimited_assemble ctx cfg left right node
termination_by 100 * sizeOf inner + 10
decreasing_by
  all_goals simp_wf
  all_goals omega

/-- Accent (engine.rs, `add_accent`, lines 141–224): lay out the nucleus in
cramped style, then assemble via `add_accent_assemble`. -/
def add_accent (ctx : FontCtx) (sym : Symbol) (nucleus : ParseNode)
    (cfg : LayoutSettings) : List LayoutNode :=
  let base := layout_recurse ctx [nucleus]
    { cfg with style := cfg.style.cramped } .Transparent
  add_accent_assemble ctx cfg sym base
termination_by 100 * (sizeOf sym + sizeOf nucleus) + 10
decreasing_by
  all_goals simp_wf
  all_goals
    have h := two_le_sizeOf_symbol sym
    omega

/-- Atom-type override (engine.rs, `add_atom_change`, lines 548–569): the
inner nodes are laid out at the current settings and wrapped as one
horizontal box; the match on the overriding atom type in the source has an
empty body and changes nothing. -/
def add_atom_change (ctx : FontCtx) (at_ : AtomType)
    (inner : List ParseNode) (cfg : LayoutSettings) : List LayoutNode :=
  [(layout_recurse ctx inner cfg .Transparent).as_node]
termination_by 100 * sizeOf inner + 10
decreasing_by
  all_goals simp_wf
  all_goals omega

end

/-- Engine entry point (engine.rs, `layout`, lines 26–28): recurse with a
Transparent trailing context. -/
def layout (ctx : FontCtx) (nodes : List ParseNode) (cfg : LayoutSettings) :
    Layout :=
  layout_recurse ctx nodes cfg .Transparent

/-- C1: in the `layout_recurse` traversal — which threads the previous atom
left-to-right starting from Transparent and peeks the next node's atom type
(or the parent's trailing context at the end) — a Binary atom is treated as
Alpha exactly when the previous atom is Transparent, Binary, Relation, Open,
Punctuation, or any Operator, or the next atom is Relation, Close, or
Punctuation; in all other adjacent contexts it remains Binary.  The second
conjunct exhibits the threading: each loop step classifies the current node
with `reclassify` and passes the result as the next step's previous atom. -/
theorem binary_reclassification (prev next : AtomType) :
    ((reclassify prev next .Binary = .Alpha ↔
      (prev = .Transparent ∨ prev = .Binary ∨ prev = .Relation
        ∨ prev = .Open ∨ prev = .Punctuation ∨ (∃ b, prev = .Operator b)
        ∨ next = .Relation ∨ next = .Close ∨ next = .Punctuation))
    ∧ (reclassify prev next .Binary = .Alpha
        ∨ reclassify prev next .Binary = .Binary))
    ∧ ∀ (ctx : FontCtx) (n : ParseNode) (rest : List ParseNode)
        (cfg : LayoutSettings) (pn : AtomType),
      layoutAux ctx (n :: rest) cfg prev pn =
        spacingNodes ctx cfg prev
          (reclassify prev
            (match rest with | [] => pn | m :: _ => m.atom_type) n.atom_type)
          ++ (dispatch ctx n cfg
            (match rest with | [] => pn | m :: _ => m.atom_type)).1
          ++ layoutAux ctx rest
            (dispatch ctx n cfg
              (match rest with | [] => pn | m :: _ => m.atom_type)).2
            (reclassify prev
              (match rest with | [] => pn | m :: _ => m.atom_type) n.atom_type)
            pn := by
  refine ⟨⟨?_, ?_⟩, ?_⟩
  · cases prev <;> cases next <;> simp [reclassify]
  · cases prev <;> cases next <;> simp [reclassify]
  · intro ctx n rest cfg pn
    rw [layoutAux.eq_def]

/-- Concrete font context used to instantiate theorems with hypotheses:
a small synthetic font whose variant resolver returns a replacement glyph of
exactly the requested extent, with spacing disabled and typical OpenType
math constant magnitudes (font units, 1000 units per em). -/
def ctx0 : FontCtx where
  units_per_em := 1000
  script_percent_scale_down := 7/10
  script_script_percent_scale_down := 1/2
  glyph_metrics := fun u => ⟨u, u, 700, -200, 500, 0, 0, (0, -200, 500, 700)⟩
  glyph_from_gid := fun g => ⟨g, g, (g : ℚ), -200, 500, 0, 0, (0, -200, 500, (g : ℚ))⟩
  vert_variant := fun g s =>
    .Replacement ⟨g.unicode, Nat.ceil s, max s 0, -200, 500, 0, 0, g.bbox⟩
  horz_variant := fun g w => .Replacement { g with advance := max w 0 }
  superscript_kern := fun _ _ _ => 0
  subscript_kern := fun _ _ _ => 0
  atom_spacing := fun _ _ _ => .NoSpace
  spacing_to_unit := fun sp => match sp with
    | .NoSpace => .Em 0
    | .Thin => .Em (3/18)
    | .Medium => .Em (4/18)
    | .Thick => .Em (5/18)
  axis_height := 250
  accent_base_height := 450
  display_operator_min_height := 1300
  superscript_shift_up := 400
  superscript_shift_up_cramped := 275
  superscript_baseline_drop_max := 250
  superscript_bottom_min := 125
  subscript_shift_down := 200
  subscript_top_max := 350
  subscript_baseline_drop_min := 150
  sub_superscript_gap_min := 150
  upper_limit_baseline_rise_min := 100
  upper_limit_gap_min := 100
  lower_limit_baseline_drop_min := 600
  lower_limit_gap_min := 150
  fraction_rule_thickness := 50
  fraction_numerator_display_style_shift_up := 700
  fraction_denominator_display_style_shift_down := 700
  fraction_num_display_style_gap_min := 150
  fraction_denom_display_style_gap_min := 150
  fraction_numerator_shift_up := 450
  fraction_denominator_shift_down := 450
  fraction_numerator_gap_min := 50
  fraction_denominator_gap_min := 50
  delimited_sub_formula_min_height := 1300
  delimiter_factor := 901/1000
  delimiter_short_fall := 100
  null_delimiter_space := 12/10
  radical_display_style_vertical_gap := 148
  radical_vertical_gap := 63
  radical_rule_thickness := 50
  radical_extra_ascender := 78

/-- Modelled from the spec: well-formedness of the font's percent-scale-down
constants — "a 'script' constant for Script/ScriptCramped; a smaller
'script-script' constant for ScriptScript/ScriptScriptCramped" (§4.1), with
the factors "strictly decreasing Display > Script > ScriptScript" from 1.0
(§8).  The constants live in the font module, absent from src/. -/
def FontCtx.scaleConstantsValid (ctx : FontCtx) : Prop :=
  ctx.script_script_percent_scale_down < ctx.script_percent_scale_down
    ∧ ctx.script_percent_scale_down < 1

/-- C6: `scale_factor` returns exactly 1 for Display, DisplayCramped, Text
and TextCramped; the script constant for Script and ScriptCramped; the
script-script constant for ScriptScript and ScriptScriptCramped; and, for a
font whose constants satisfy the spec's ordering, the three factors strictly
decrease from the Display level to the Script level to the ScriptScript
level. -/
theorem scale_factor_spec (ctx : FontCtx) (fs : ℚ)
    (h : ctx.scaleConstantsValid) :
    (scale_factor ctx ⟨.Display, fs⟩ = 1
      ∧ scale_factor ctx ⟨.DisplayCramped, fs⟩ = 1
      ∧ scale_factor ctx ⟨.Text, fs⟩ = 1
      ∧ scale_factor ctx ⟨.TextCramped, fs⟩ = 1)
    ∧ (scale_factor ctx ⟨.Script, fs⟩ = ctx.script_percent_scale_down
      ∧ scale_factor ctx ⟨.ScriptCramped, fs⟩ = ctx.script_percent_scale_down)
    ∧ (scale_factor ctx ⟨.ScriptScript, fs⟩
        = ctx.script_script_percent_scale_down
      ∧ scale_factor ctx ⟨.ScriptScriptCramped, fs⟩
        = ctx.script_script_percent_scale_down)
    ∧ scale_factor ctx ⟨.Script, fs⟩ < scale_factor ctx ⟨.Display, fs⟩
    ∧ scale_factor ctx ⟨.ScriptScript, fs⟩ < scale_factor ctx ⟨.Script, fs⟩ := by
  obtain ⟨h1, h2⟩ := h
  refine ⟨⟨rfl, rfl, rfl, rfl⟩, ⟨rfl, rfl⟩, ⟨rfl, rfl⟩, ?_, ?_⟩
  · simpa [scale_factor] using h2
  · simpa [scale_factor] using h1

/-- Witness for C6 at the concrete font context. -/
theorem scale_factor_spec_witness :
    ctx0.scaleConstantsValid
      ∧ (scale_factor ctx0 ⟨.Display, 10⟩ = 1
        ∧ scale_factor ctx0 ⟨.Script, 10⟩ = ctx0.script_percent_scale_down
        ∧ scale_factor ctx0 ⟨.ScriptScript, 10⟩
            < scale_factor ctx0 ⟨.Script, 10⟩) := by
  have hv : ctx0.scaleConstantsValid := by
    constructor <;> norm_num [ctx0]
  have h := scale_factor_spec ctx0 10 hv
  exact ⟨hv, h.1.1, h.2.1.1, h.2.2.2.2⟩

/-- Aggregation law of the horizontal-box builder fold: width accumulates by
addition, height by max, depth by min; offset and alignment are untouched
and children append in order. -/
theorem hbox_foldl_spec (l : List LayoutNode) (b : HBoxB) :
    (l.foldl HBoxB.add_node b).width = b.width + (l.map LayoutNode.width).sum
    ∧ (l.foldl HBoxB.add_node b).height
      = (l.map LayoutNode.height).foldl max b.height
    ∧ (l.foldl HBoxB.add_node b).depth
      = (l.map LayoutNode.depth).foldl min b.depth
    ∧ (l.foldl HBoxB.add_node b).offset = b.offset
    ∧ (l.foldl HBoxB.add_node b).alignment = b.alignment
    ∧ (l.foldl HBoxB.add_node b).contents = b.contents ++ l := by
  induction l generalizing b with
  | nil => simp
  | cons x xs ih =>
    have ih' := ih (b.add_node x)
    simp only [HBoxB.add_node] at ih'
    obtain ⟨i1, i2, i3, i4, i5, i6⟩ := ih'
    simp only [List.foldl_cons, List.map_cons, List.sum_cons, HBoxB.add_node]
    refine ⟨?_, ?_, ?_, ?_, ?_, ?_⟩
    · rw [i1]
      ring
    · rw [i2]
    · rw [i3]
    · rw [i4]
    · rw [i5]
    · rw [i6]
      simp

/-- Fold with max is an upper bound of the seed and the list elements. -/
theorem foldl_max_bounds (a : ℚ) (l : List ℚ) :
    a ≤ l.foldl max a ∧ ∀ x ∈ l, x ≤ l.foldl max a := by
  induction l generalizing a with
  | nil => simp
  | cons y ys ih =>
    obtain ⟨i1, i2⟩ := ih (max a y)
    refine ⟨?_, ?_⟩
    · rw [List.foldl_cons]
      exact le_trans (le_max_left a y) i1
    · intro x hx
      rw [List.foldl_cons]
      rcases List.mem_cons.mp hx with h | h
      · rw [h]
        exact le_trans (le_max_right a y) i1
      · exact i2 x h

/-- Fold with max returns the seed or a list element. -/
theorem foldl_max_mem (a : ℚ) (l : List ℚ) :
    l.foldl max a = a ∨ l.foldl max a ∈ l := by
  induction l generalizing a with
  | nil => simp
  | cons y ys ih =>
    rcases ih (max a y) with h | h
    · rcases max_choice a y with hc | hc
      · left
        rw [List.foldl_cons, h, hc]
      · right
        rw [List.foldl_cons, h, hc]
        exact List.mem_cons_self y ys
    · right
      exact List.mem_cons_of_mem y h

/-- Fold with min is a lower bound of the seed and the list elements. -/
theorem foldl_min_bounds (a : ℚ) (l : List ℚ) :
    l.foldl min a ≤ a ∧ ∀ x ∈ l, l.foldl min a ≤ x := by
  induction l generalizing a with
  | nil => simp
  | cons y ys ih =>
    obtain ⟨i1, i2⟩ := ih (min a y)
    refine ⟨?_, ?_⟩
    · rw [List.foldl_cons]
      exact le_trans i1 (min_le_left a y)
    · intro x hx
      rw [List.foldl_cons]
      rcases List.mem_cons.mp hx with h | h
      · rw [h]
        exact le_trans i1 (min_le_right a y)
      · exact i2 x h

/-- Fold with min returns the seed or a list element. -/
theorem foldl_min_mem (a : ℚ) (l : List ℚ) :
    l.foldl min a = a ∨ l.foldl min a ∈ l := by
  induction l generalizing a with
  | nil => simp
  | cons y ys ih =>
    rcases ih (min a y) with h | h
    · rcases min_choice a y with hc | hc
      · left
        rw [List.foldl_cons, h, hc]
      · right
        rw [List.foldl_cons, h, hc]
        exact List.mem_cons_self y ys
    · right
      exact List.mem_cons_of_mem y h

/-- C4: a horizontal box built via the HBox builder with its default zero
offset and no width override has width equal to the sum of the children's
widths, height equal to the maximum of the children's heights, and depth
equal to the minimum of the children's depths, for a nonempty child list
respecting the data-model invariant (heights ≥ 0, depths ≤ 0). -/
theorem hbox_build_dims (children : List LayoutNode)
    (hne : children ≠ [])
    (hh : ∀ n ∈ children, 0 ≤ n.height)
    (hd : ∀ n ∈ children, n.depth ≤ 0) :
    (hboxOf children).width = (children.map LayoutNode.width).sum
    ∧ ((hboxOf children).height ∈ children.map LayoutNode.height
      ∧ ∀ n ∈ children, n.height ≤ (hboxOf children).height)
    ∧ ((hboxOf children).depth ∈ children.map LayoutNode.depth
      ∧ ∀ n ∈ children, (hboxOf children).depth ≤ n.depth) := by
  obtain ⟨f1, f2, f3, f4, _, _⟩ := hbox_foldl_spec children HBoxB.new
  have hw : (hboxOf children).width = (children.map LayoutNode.width).sum := by
    simp only [hboxOf, HBoxB.build, LayoutNode.width]
    rw [f1]
    simp [HBoxB.new]
  have hht : (hboxOf children).height
      = (children.map LayoutNode.height).foldl max 0 := by
    simp only [hboxOf, HBoxB.build, LayoutNode.height]
    rw [f2, f4]
    simp [HBoxB.new]
  have hdt : (hboxOf children).depth
      = (children.map LayoutNode.depth).foldl min 0 := by
    simp only [hboxOf, HBoxB.build, LayoutNode.depth]
    rw [f3, f4]
    simp [HBoxB.new]
  refine ⟨hw, ⟨?_, ?_⟩, ⟨?_, ?_⟩⟩
  · rcases foldl_max_mem 0 (children.map LayoutNode.height) with h | h
    · obtain ⟨x, hx⟩ := List.exists_mem_of_ne_nil children hne
      have hx0 : x.height ≤ (children.map LayoutNode.height).foldl max 0 :=
        (foldl_max_bounds 0 _).2 _ (List.mem_map_of_mem _ hx)
      have hx1 : (children.map LayoutNode.height).foldl max 0 ≤ x.height := by
        rw [h]
        exact hh x hx
      have : x.height = (children.map LayoutNode.height).foldl max 0 :=
        le_antisymm hx0 hx1
      rw [hht, ← this]
      exact List.mem_map_of_mem _ hx
    · rw [hht]
      exact h
  · intro n hn
    rw [hht]
    exact (foldl_max_bounds 0 _).2 _ (List.mem_map_of_mem _ hn)
  · rcases foldl_min_mem 0 (children.map LayoutNode.depth) with h | h
    · obtain ⟨x, hx⟩ := List.exists_mem_of_ne_nil children hne
      have hx0 : (children.map LayoutNode.depth).foldl min 0 ≤ x.depth :=
        (foldl_min_bounds 0 _).2 _ (List.mem_map_of_mem _ hx)
      have hx1 : x.depth ≤ (children.map LayoutNode.depth).foldl min 0 := by
        rw [h]
        exact hd x hx
      have : x.depth = (children.map LayoutNode.depth).foldl min 0 :=
        le_antisymm hx1 hx0
      rw [hdt, ← this]
      exact List.mem_map_of_mem _ hx
    · rw [hdt]
      exact h
  · intro n hn
    rw [hdt]
    exact (foldl_min_bounds 0 _).2 _ (List.mem_map_of_mem _ hn)

/-- Witness for C4 at a concrete child list. -/
theorem hbox_build_dims_witness :
    (hboxOf [LayoutNode.mk 2 3 (-1) .Kern, LayoutNode.mk 4 1 (-2) .Kern]).width
      = (([LayoutNode.mk 2 3 (-1) .Kern,
          LayoutNode.mk 4 1 (-2) .Kern]).map LayoutNode.width).sum
    ∧ ((hboxOf [LayoutNode.mk 2 3 (-1) .Kern, LayoutNode.mk 4 1 (-2) .Kern]).height
        ∈ ([LayoutNode.mk 2 3 (-1) .Kern,
          LayoutNode.mk 4 1 (-2) .Kern]).map LayoutNode.height
      ∧ ∀ n ∈ [LayoutNode.mk 2 3 (-1) .Kern, LayoutNode.mk 4 1 (-2) .Kern],
        n.height ≤ (hboxOf [LayoutNode.mk 2 3 (-1) .Kern,
          LayoutNode.mk 4 1 (-2) .Kern]).height)
    ∧ ((hboxOf [LayoutNode.mk 2 3 (-1) .Kern, LayoutNode.mk 4 1 (-2) .Kern]).depth
        ∈ ([LayoutNode.mk 2 3 (-1) .Kern,
          LayoutNode.mk 4 1 (-2) .Kern]).map LayoutNode.depth
      ∧ ∀ n ∈ [LayoutNode.mk 2 3 (-1) .Kern, LayoutNode.mk 4 1 (-2) .Kern],
        (hboxOf [LayoutNode.mk 2 3 (-1) .Kern,
          LayoutNode.mk 4 1 (-2) .Kern]).depth ≤ n.depth) :=
  hbox_build_dims
    [LayoutNode.mk 2 3 (-1) .Kern, LayoutNode.mk 4 1 (-2) .Kern]
    (by simp) (by decide) (by decide)

/-- A sequence of grid inserts applied in order (builders.rs `Grid::insert`
iterated). -/
def GridB.applyInserts (g : GridB) (ops : List (ℕ × ℕ × LayoutNode)) : GridB :=
  ops.foldl (fun g op => g.insert op.1 op.2.1 op.2.2) g

/-- Length of a resized list is the requested length. -/
theorem listResize_length {α : Type} (l : List α) (n : ℕ) (v : α) :
    (listResize l n v).length = n := by
  unfold listResize
  split
  · rw [List.length_take]
    omega
  · rw [List.length_append, List.length_replicate]
    omega

/-- Resizing to a larger length preserves the existing elements. -/
theorem listResize_getElem {α : Type} (l : List α) (n : ℕ) (v : α) (i : ℕ)
    (hi : i < l.length) (hn : l.length ≤ n)
    (hi2 : i < (listResize l n v).length) :
    (listResize l n v)[i] = l[i] := by
  by_cases h : n ≤ l.length
  · have he : n = l.length := le_antisymm h hn
    subst he
    simp [listResize]
  · simp only [listResize, if_neg h]
    exact List.getElem_append_left hi

/-- Length law of the column-table update. -/
theorem bumpColumn_length (cols : List ℚ) (c : ℕ) (n : LayoutNode) :
    (bumpColumn cols c n).length = max cols.length (c + 1) := by
  unfold bumpColumn
  simp only [List.length_set]
  split
  · rw [listResize_length]
    omega
  · omega

/-- Length law of the row-table update. -/
theorem bumpRow_length (rows : List (ℚ × ℚ)) (r : ℕ) (n : LayoutNode) :
    (bumpRow rows r n).length = max rows.length (r + 1) := by
  unfold bumpRow
  simp only [List.length_set]
  split
  · rw [listResize_length]
    omega
  · omega

/-- The column-table update never decreases a recorded width. -/
theorem bumpColumn_mono (cols : List ℚ) (c : ℕ) (n : LayoutNode) (i : ℕ)
    (h1 : i < cols.length) (h2 : i < (bumpColumn cols c n).length) :
    cols[i] ≤ (bumpColumn cols c n)[i] := by
  unfold bumpColumn at h2 ⊢
  by_cases hg : cols.length ≤ c
  · simp only [if_pos hg] at h2 ⊢
    have hic : c ≠ i := by omega
    rw [List.getElem_set_ne hic]
    have hi : i < (listResize cols (c + 1) 0).length := by
      rw [listResize_length]
      omega
    rw [listResize_getElem cols (c + 1) 0 i h1 (by omega) hi]
  · simp only [if_neg hg] at h2 ⊢
    rw [List.getElem_set]
    split
    · rename_i hic
      subst hic
      rw [List.getD_eq_getElem cols 0 h1]
      split
      · rename_i hlt
        exact le_of_lt hlt
      · exact le_refl _
    · exact le_refl _

/-- The row-table update never decreases a recorded height and never
increases a recorded depth. -/
theorem bumpRow_mono (rows : List (ℚ × ℚ)) (r : ℕ) (n : LayoutNode) (i : ℕ)
    (h1 : i < rows.length) (h2 : i < (bumpRow rows r n).length) :
    (rows[i]).1 ≤ ((bumpRow rows r n)[i]).1
    ∧ ((bumpRow rows r n)[i]).2 ≤ (rows[i]).2 := by
  unfold bumpRow at h2 ⊢
  by_cases hg : rows.length ≤ r
  · simp only [if_pos hg] at h2 ⊢
    have hic : r ≠ i := by omega
    rw [List.getElem_set_ne hic]
    have hi : i < (listResize rows (r + 1) (0, 0)).length := by
      rw [listResize_length]
      omega
    rw [listResize_getElem rows (r + 1) (0, 0) i h1 (by omega) hi]
    exact ⟨le_refl _, le_refl _⟩
  · simp only [if_neg hg] at h2 ⊢
    rw [List.getElem_set]
    split
    · rename_i hic
      subst hic
      rw [List.getD_eq_getElem rows (0, 0) h1]
      constructor
      · split <;> split <;> simp_all <;> linarith
      · split <;> split <;> simp_all <;> linarith
    · exact ⟨le_refl _, le_refl _⟩

/-- Lengths of the grid tables after one insert. -/
theorem grid_insert_lengths (g : GridB) (r c : ℕ) (n : LayoutNode) :
    (g.insert r c n).rows.length = max g.rows.length (r + 1)
    ∧ (g.insert r c n).columns.length = max g.columns.length (c + 1) :=
  ⟨bumpRow_length g.rows r n, bumpColumn_length g.columns c n⟩

/-- One grid insert never decreases a recorded column width or row height
and never increases a recorded row depth. -/
theorem grid_insert_mono (g : GridB) (r c : ℕ) (n : LayoutNode) :
    (∀ (i : ℕ) (h1 : i < g.columns.length)
        (h2 : i < (g.insert r c n).columns.length),
        g.columns[i] ≤ (g.insert r c n).columns[i])
    ∧ (∀ (i : ℕ) (h1 : i < g.rows.length)
        (h2 : i < (g.insert r c n).rows.length),
        (g.rows[i]).1 ≤ ((g.insert r c n).rows[i]).1
        ∧ ((g.insert r c n).rows[i]).2 ≤ (g.rows[i]).2) :=
  ⟨fun i h1 h2 => bumpColumn_mono g.columns c n i h1 h2,
    fun i h1 h2 => bumpRow_mono g.rows r n i h1 h2⟩

/-- Table lengths never shrink across a sequence of inserts. -/
theorem grid_apply_lengths (ops : List (ℕ × ℕ × LayoutNode)) (g : GridB) :
    g.columns.length ≤ (g.applyInserts ops).columns.length
    ∧ g.rows.length ≤ (g.applyInserts ops).rows.length := by
  induction ops generalizing g with
  | nil => simp [GridB.applyInserts]
  | cons op ops ih =>
    obtain ⟨l1, l2⟩ := grid_insert_lengths g op.1 op.2.1 op.2.2
    obtain ⟨i1, i2⟩ := ih (g.insert op.1 op.2.1 op.2.2)
    refine ⟨le_trans ?_ i1, le_trans ?_ i2⟩ <;> omega

/-- C10: after `Grid::insert(row, column, node)` the per-row table is longer
than `row` and the per-column table longer than `column`; over any sequence
of inserts every recorded column width and row height is monotonically
non-decreasing and every recorded row depth monotonically non-increasing —
in particular, overwriting the occupied cell (0,0) of a grid holding a
2×2 node with a smaller 1×1 node leaves only the small node in the contents
while `Grid::build` still reports width 2 and height 2. -/
theorem grid_growth_spec (g : GridB) (r c : ℕ) (n : LayoutNode)
    (ops : List (ℕ × ℕ × LayoutNode)) :
    (r < (g.insert r c n).rows.length ∧ c < (g.insert r c n).columns.length)
    ∧ (∀ (i : ℕ) (h1 : i < g.columns.length)
        (h2 : i < (g.applyInserts ops).columns.length),
        g.columns[i] ≤ (g.applyInserts ops).columns[i])
    ∧ (∀ (i : ℕ) (h1 : i < g.rows.length)
        (h2 : i < (g.applyInserts ops).rows.length),
        (g.rows[i]).1 ≤ ((g.applyInserts ops).rows[i]).1
        ∧ ((g.applyInserts ops).rows[i]).2 ≤ (g.rows[i]).2)
    ∧ ((GridB.new.insert 0 0 (.mk 2 2 0 .Kern)).insert 0 0
          (.mk 1 1 0 .Kern)).contents = [((0, 0), .mk 1 1 0 .Kern)]
    ∧ ((GridB.new.insert 0 0 (.mk 2 2 0 .Kern)).insert 0 0
          (.mk 1 1 0 .Kern)).build.width = 2
    ∧ ((GridB.new.insert 0 0 (.mk 2 2 0 .Kern)).insert 0 0
          (.mk 1 1 0 .Kern)).build.height = 2 := by
  refine ⟨?_, ?_, ?_, ?_, ?_, ?_⟩
  · obtain ⟨l1, l2⟩ := grid_insert_lengths g r c n
    omega
  · intro i
    induction ops generalizing g with
    | nil => simp [GridB.applyInserts]
    | cons op ops ih =>
      intro h1 h2
      obtain ⟨l1, _⟩ := grid_insert_lengths g op.1 op.2.1 op.2.2
      have hmid : i < (g.insert op.1 op.2.1 op.2.2).columns.length := by omega
      have step := (grid_insert_mono g op.1 op.2.1 op.2.2).1 i h1 hmid
      have rest := ih (g.insert op.1 op.2.1 op.2.2) hmid h2
      exact le_trans step rest
  · intro i
    induction ops generalizing g with
    | nil => simp [GridB.applyInserts]
    | cons op ops ih =>
      intro h1 h2
      obtain ⟨_, l2⟩ := grid_insert_lengths g op.1 op.2.1 op.2.2
      have hmid : i < (g.insert op.1 op.2.1 op.2.2).rows.length := by omega
      have step := (grid_insert_mono g op.1 op.2.1 op.2.2).2 i h1 hmid
      have rest := ih (g.insert op.1 op.2.1 op.2.2) hmid h2
      exact ⟨le_trans step.1 rest.1, le_trans rest.2 step.2⟩
  · rfl
  · norm_num [GridB.new, GridB.insert, GridB.build, bumpColumn, bumpRow,
      listResize, LayoutNode.width, LayoutNode.height, LayoutNode.depth,
      assocInsert]
  · norm_num [GridB.new, GridB.insert, GridB.build, bumpColumn, bumpRow,
      listResize, LayoutNode.width, LayoutNode.height, LayoutNode.depth,
      assocInsert]

/-- Witness for C10 at a concrete grid and insert sequence. -/
theorem grid_growth_spec_witness :
    (0 < ((GridB.new.insert 0 0 (.mk 5 3 (-1) .Kern)).insert 0 0
        (.mk 5 3 (-1) .Kern)).rows.length
      ∧ 0 < ((GridB.new.insert 0 0 (.mk 5 3 (-1) .Kern)).insert 0 0
        (.mk 5 3 (-1) .Kern)).columns.length)
    ∧ (GridB.new.insert 0 0 (.mk 5 3 (-1) .Kern)).columns.getD 0 0
      ≤ ((GridB.new.insert 0 0 (.mk 5 3 (-1) .Kern)).applyInserts
          [(0, 0, .mk 1 1 0 .Kern)]).columns.getD 0 0 := by
  have h := grid_growth_spec (GridB.new.insert 0 0 (.mk 5 3 (-1) .Kern)) 0 0
    (.mk 5 3 (-1) .Kern) [(0, 0, .mk 1 1 0 .Kern)]
  refine ⟨h.1, ?_⟩
  have h1 : (0 : ℕ) < (GridB.new.insert 0 0
      (.mk 5 3 (-1) .Kern)).columns.length := by decide
  have h2 : (0 : ℕ) < ((GridB.new.insert 0 0
      (.mk 5 3 (-1) .Kern)).applyInserts
        [(0, 0, .mk 1 1 0 .Kern)]).columns.length := by decide
  have := h.2.1 0 h1 h2
  rw [List.getD_eq_getElem _ _ h1, List.getD_eq_getElem _ _ h2]
  exact this

/-- Children of a vertical-box layout node (empty for other variants);
read-only accessor used to inspect produced boxes. -/
def vboxContents (n : LayoutNode) : List LayoutNode :=
  match n.node with
  | .VerticalBox cs _ => cs
  | _ => []

/-- Nonnegativity of a parser-supplied length's magnitude. -/
def AnyUnit.isNonneg : AnyUnit → Prop
  | .Em v => 0 ≤ v
  | .Px v => 0 ≤ v

/-- Counterexample to C5: the vertical variant-glyph assembly of convert.rs
(lines 55–69) emits an overlap kern node of negative height — here a part
with declared overlap 300 against a part depth of −200 yields a kern node of
height −100 inside the produced vertical box, so not every produced layout
node has height ≥ 0. -/
theorem layout_dims_counterexample :
    ((vboxContents ((VariantGlyph.Constructable .Vertical
      [⟨7, 300⟩]).as_layout ctx0 ⟨.Text, 1000⟩)).getD 1 (kernH 0)).height
      < 0 := by
  norm_num [VariantGlyph.as_layout, ctx0, vboxContents, VBoxB.new,
    VBoxB.insert_node, VBoxB.add_node, VBoxB.build, kernV, kernH, scaledFont,
    scale_factor, Glyph.as_layout, LayoutNode.height, LayoutNode.node,
    LayoutNode.depth, LayoutNode.width]

/-- C5 (amended): layout nodes produced by plain glyph conversion and rule
conversion satisfy the dimension invariant — width ≥ 0, height ≥ 0,
depth ≤ 0 — for nonnegative glyph metrics, font size, scale factor and rule
lengths; kern nodes produced by the engine and the variant assembly are
exempt and may carry negative height or width. -/
theorem conversion_dims (ctx : FontCtx) (cfg : LayoutSettings) (g : Glyph)
    (w h : AnyUnit)
    (hupem : 0 < ctx.units_per_em) (hfs : 0 ≤ cfg.font_size)
    (hsf : 0 ≤ scale_factor ctx cfg)
    (hgh : 0 ≤ g.height) (hgd : g.depth ≤ 0) (hga : 0 ≤ g.advance)
    (hw : w.isNonneg) (hh : h.isNonneg) :
    (0 ≤ (g.as_layout ctx cfg).width
      ∧ 0 ≤ (g.as_layout ctx cfg).height
      ∧ (g.as_layout ctx cfg).depth ≤ 0)
    ∧ (0 ≤ (ruleAsLayout ctx cfg w h).width
      ∧ 0 ≤ (ruleAsLayout ctx cfg w h).height
      ∧ (ruleAsLayout ctx cfg w h).depth ≤ 0) := by
  have hsu : ∀ u : AnyUnit, u.isNonneg → 0 ≤ scaledUnit ctx cfg u := by
    intro u hu
    cases u with
    | Em v =>
      have hv : 0 ≤ v := hu
      exact mul_nonneg (mul_nonneg hv hfs) hsf
    | Px v =>
      have hv : 0 ≤ v := hu
      exact mul_nonneg hv hsf
  have hsf1 : ∀ x : ℚ, 0 ≤ x → 0 ≤ scaledFont ctx cfg x := by
    intro x hx
    exact mul_nonneg (mul_nonneg (div_nonneg hx (le_of_lt hupem)) hfs) hsf
  have hsf2 : ∀ x : ℚ, x ≤ 0 → scaledFont ctx cfg x ≤ 0 := by
    intro x hx
    unfold scaledFont
    have h1 : x / ctx.units_per_em ≤ 0 := div_nonpos_of_nonpos_of_nonneg hx
      (le_of_lt hupem)
    have h2 : x / ctx.units_per_em * cfg.font_size ≤ 0 :=
      mul_nonpos_iff.mpr (Or.inr ⟨h1, hfs⟩)
    exact mul_nonpos_iff.mpr (Or.inr ⟨h2, hsf⟩)
  refine ⟨⟨?_, ?_, ?_⟩, ⟨?_, ?_, ?_⟩⟩
  · exact hsf1 g.advance hga
  · exact hsf1 g.height hgh
  · exact hsf2 g.depth hgd
  · exact hsu w hw
  · exact hsu h hh
  · exact le_refl 0

/-- Witness for the amended C5 at a concrete glyph and rule. -/
theorem conversion_dims_witness :
    (0 ≤ ((⟨97, 97, 700, -200, 500, 0, 0, (0, -200, 500, 700)⟩ :
        Glyph).as_layout ctx0 ⟨.Text, 1000⟩).width
      ∧ 0 ≤ ((⟨97, 97, 700, -200, 500, 0, 0, (0, -200, 500, 700)⟩ :
        Glyph).as_layout ctx0 ⟨.Text, 1000⟩).height
      ∧ ((⟨97, 97, 700, -200, 500, 0, 0, (0, -200, 500, 700)⟩ :
        Glyph).as_layout ctx0 ⟨.Text, 1000⟩).depth ≤ 0)
    ∧ (0 ≤ (ruleAsLayout ctx0 ⟨.Text, 1000⟩ (.Px 4) (.Px 2)).width
      ∧ 0 ≤ (ruleAsLayout ctx0 ⟨.Text, 1000⟩ (.Px 4) (.Px 2)).height
      ∧ (ruleAsLayout ctx0 ⟨.Text, 1000⟩ (.Px 4) (.Px 2)).depth ≤ 0) :=
  conversion_dims ctx0 ⟨.Text, 1000⟩
    ⟨97, 97, 700, -200, 500, 0, 0, (0, -200, 500, 700)⟩ (.Px 4) (.Px 2)
    (by norm_num [ctx0]) (by norm_num) (by norm_num [scale_factor])
    (by norm_num) (by norm_num) (by norm_num)
    (by norm_num [AnyUnit.isNonneg]) (by norm_num [AnyUnit.isNonneg])

/-- After the symmetric gap fix, the superscript's bottom clears the
subscript's top by at least the minimum gap. -/
theorem gap_fix_spec (g au ad sd sh : ℚ) :
    g ≤ ((sub_sup_gap_fix g au ad sd sh true).1 + sd)
      - (sh - (sub_sup_gap_fix g au ad sd sh true).2) := by
  unfold sub_sup_gap_fix
  simp only [if_true]
  split
  · rename_i hlt
    simp only
    linarith
  · rename_i hge
    simp only
    linarith

/-- C2 (amended): in `add_scripts`, whenever both the superscript and the
subscript layouts are non-empty, the final adjustments satisfy
(superscript-bottom − subscript-top) = (adjust_up + sup.depth) −
(sub.height − adjust_down) ≥ the scaled SUB_SUPERSCRIPT_GAP_MIN: the engine
keeps the superscript's bottom above the subscript's top by at least the
minimum gap (the claim states the same bound for the reversed difference,
subscript-top − superscript-bottom, which the code does not enforce). -/
theorem scripts_gap_enforced (ctx : FontCtx) (cfg : LayoutSettings)
    (sbase ssup ssub : Option ParseNode) (base sup sub : Layout)
    (hsup : sup.contents ≠ []) (hsub : sub.contents ≠ []) :
    scaledFont ctx cfg ctx.sub_superscript_gap_min
      ≤ ((scripts_adjustments ctx cfg sbase ssup ssub base sup sub).1
          + sup.depth)
        - (sub.height
          - (scripts_adjustments ctx cfg sbase ssup ssub base sup sub).2.1) := by
  have hB : (!sub.contents.isEmpty && !sup.contents.isEmpty) = true := by
    simp only [Bool.and_eq_true, Bool.not_eq_true']
    constructor
    · exact List.isEmpty_eq_false.mpr hsub
    · exact List.isEmpty_eq_false.mpr hsup
  unfold scripts_adjustments
  simp only [hB]
  exact gap_fix_spec _ _ _ _ _

/-- Witness for the amended C2 at a concrete scripts configuration. -/
theorem scripts_gap_enforced_witness :
    scaledFont ctx0 ⟨.Text, 1000⟩ ctx0.sub_superscript_gap_min
      ≤ ((scripts_adjustments ctx0 ⟨.Text, 1000⟩ none
          (some (.Kerning (.Em 0))) (some (.Kerning (.Em 0))) Layout.new
          ⟨[kernH 0], 0, 0, 0, .Default⟩ ⟨[kernH 0], 0, 0, 0, .Default⟩).1
          + (⟨[kernH 0], 0, 0, 0, .Default⟩ : Layout).depth)
        - ((⟨[kernH 0], 0, 0, 0, .Default⟩ : Layout).height
          - (scripts_adjustments ctx0 ⟨.Text, 1000⟩ none
            (some (.Kerning (.Em 0))) (some (.Kerning (.Em 0))) Layout.new
            ⟨[kernH 0], 0, 0, 0, .Default⟩
            ⟨[kernH 0], 0, 0, 0, .Default⟩).2.1) :=
  scripts_gap_enforced ctx0 ⟨.Text, 1000⟩ none
    (some (.Kerning (.Em 0))) (some (.Kerning (.Em 0))) Layout.new
    ⟨[kernH 0], 0, 0, 0, .Default⟩ ⟨[kernH 0], 0, 0, 0, .Default⟩
    (by simp) (by simp)

/-- Counterexample to C2 as stated: at a concrete scripts configuration
(empty base, one-kern superscript and subscript layouts, synthetic font,
Text style at size 1000) the claimed quantity (subscript-top −
superscript-bottom) = (sub.height − adjust_down) − (adjust_up + sup.depth)
evaluates to −600, strictly below the scaled minimum gap 150: the claim's
difference has the roles of the two scripts reversed. -/
theorem scripts_gap_sign_counterexample :
    ((⟨[kernH 0], 0, 0, 0, .Default⟩ : Layout).height
      - (scripts_adjustments ctx0 ⟨.Text, 1000⟩ none
        (some (.Kerning (.Em 0))) (some (.Kerning (.Em 0))) Layout.new
        ⟨[kernH 0], 0, 0, 0, .Default⟩ ⟨[kernH 0], 0, 0, 0, .Default⟩).2.1)
      - ((scripts_adjustments ctx0 ⟨.Text, 1000⟩ none
        (some (.Kerning (.Em 0))) (some (.Kerning (.Em 0))) Layout.new
        ⟨[kernH 0], 0, 0, 0, .Default⟩ ⟨[kernH 0], 0, 0, 0, .Default⟩).1
        + (⟨[kernH 0], 0, 0, 0, .Default⟩ : Layout).depth)
      < scaledFont ctx0 ⟨.Text, 1000⟩ ctx0.sub_superscript_gap_min := by
  norm_num [scripts_adjustments, sub_sup_gap_fix, ctx0, scaledFont,
    scale_factor, Style.is_cramped, Layout.new]

/-- Under the spec's style ordering (cramped variants compare equal to their
uncramped counterparts), being strictly above Text is the same as being at
least Display. -/
theorem style_gt_text_iff_ge_display (s : Style) :
    s.sgt .Text = s.sge .Display := by
  cases s <;> rfl

/-- Aggregation law of the vertical-box builder fold on contents and
offset: children append in order and the offset is untouched. -/
theorem vbox_foldl_spec (l : List LayoutNode) (b : VBoxB) :
    (l.foldl VBoxB.add_node b).contents = b.contents ++ l
    ∧ (l.foldl VBoxB.add_node b).offset = b.offset := by
  induction l generalizing b with
  | nil => simp
  | cons x xs ih =>
    have ih' := ih (b.add_node x)
    simp only [VBoxB.add_node] at ih'
    obtain ⟨i1, i2⟩ := ih'
    simp only [List.foldl_cons, VBoxB.add_node]
    exact ⟨by rw [i1]; simp, i2⟩

/-- The children of a built offset vertical box are exactly the added
nodes. -/
theorem vboxContents_vboxOffsetOf (o : ℚ) (ns : List LayoutNode) :
    vboxContents (vboxOffsetOf o ns) = ns := by
  obtain ⟨h1, h2⟩ := vbox_foldl_spec ns VBoxB.new
  simp only [VBoxB.new, List.nil_append] at h1
  simp only [vboxContents, vboxOffsetOf, VBoxB.set_offset, VBoxB.build,
    LayoutNode.node, VBoxB.new]
  exact h1

/-- C3: in the vertical box assembled by `add_frac`, the geometric gap
between the numerator's bottom and the top of the fraction bar (the
numerator kern plus the numerator's depth, under the renderer's
stack-by-height semantics) is at least the configured minimum numerator
gap, and the gap between the bar's bottom and the denominator's top (the
denominator kern) is at least the configured minimum denominator gap; the
minimum gaps and shift defaults come from the display-style parameter set
exactly when style ≥ Display and from the text-style set otherwise. -/
theorem frac_gaps_spec (ctx : FontCtx) (cfg : LayoutSettings) (bar : ℚ)
    (n d : Layout) :
    (if cfg.style.sge .Display
        then scaledFont ctx cfg ctx.fraction_num_display_style_gap_min
        else scaledFont ctx cfg ctx.fraction_numerator_gap_min)
      ≤ ((vboxContents ((add_frac_assemble ctx cfg bar n d).getD 1
            (kernH 0))).getD 1 (kernH 0)).height
        + ((vboxContents ((add_frac_assemble ctx cfg bar n d).getD 1
            (kernH 0))).getD 0 (kernH 0)).depth
    ∧ (if cfg.style.sge .Display
        then scaledFont ctx cfg ctx.fraction_denom_display_style_gap_min
        else scaledFont ctx cfg ctx.fraction_denominator_gap_min)
      ≤ ((vboxContents ((add_frac_assemble ctx cfg bar n d).getD 1
            (kernH 0))).getD 3 (kernH 0)).height
    ∧ frac_params ctx cfg
      = (if cfg.style.sge .Display then
          (scaledFont ctx cfg ctx.fraction_numerator_display_style_shift_up,
            scaledFont ctx cfg ctx.fraction_denominator_display_style_shift_down,
            scaledFont ctx cfg ctx.fraction_num_display_style_gap_min,
            scaledFont ctx cfg ctx.fraction_denom_display_style_gap_min)
        else
          (scaledFont ctx cfg ctx.fraction_numerator_shift_up,
            scaledFont ctx cfg ctx.fraction_denominator_shift_down,
            scaledFont ctx cfg ctx.fraction_numerator_gap_min,
            scaledFont ctx cfg ctx.fraction_denominator_gap_min)) := by
  have hsel := style_gt_text_iff_ge_display cfg.style
  refine ⟨?_, ?_, ?_⟩
  · unfold add_frac_assemble
    simp only [List.getD_cons_zero, List.getD_cons_succ]
    rw [vboxContents_vboxOffsetOf]
    simp only [List.getD_cons_zero, List.getD_cons_succ, kernV,
      LayoutNode.height, LayoutNode.depth, Layout.as_node, frac_kern_num,
      frac_params, ← hsel]
    split
    · split <;>
        simp <;>
        linarith [le_max_right
          (scaledFont ctx cfg ctx.fraction_numerator_display_style_shift_up
            - scaledFont ctx cfg ctx.axis_height - bar / 2)
          (scaledFont ctx cfg ctx.fraction_num_display_style_gap_min
            - n.depth)]
    · split <;>
        simp <;>
        linarith [le_max_right
          (scaledFont ctx cfg ctx.fraction_numerator_shift_up
            - scaledFont ctx cfg ctx.axis_height - bar / 2)
          (scaledFont ctx cfg ctx.fraction_numerator_gap_min - n.depth)]
  · unfold add_frac_assemble
    simp only [List.getD_cons_zero, List.getD_cons_succ]
    rw [vboxContents_vboxOffsetOf]
    simp only [List.getD_cons_zero, List.getD_cons_succ, kernV,
      LayoutNode.height, LayoutNode.depth, Layout.as_node, frac_kern_den,
      frac_params, ← hsel]
    split
    · split <;> simp
    · split <;> simp
  · simp only [frac_params, ← hsel]

/-- Baseline offset of a vertical-box layout node (zero for other
variants); read-only accessor used to inspect produced boxes. -/
def vboxOffset (n : LayoutNode) : ℚ :=
  match n.node with
  | .VerticalBox _ o => o
  | _ => 0

/-- Laid-out vertical extent of a variant glyph: height minus depth of its
layout node. -/
def variantExtent (ctx : FontCtx) (cfg : LayoutSettings) (v : VariantGlyph) :
    ℚ :=
  (v.as_layout ctx cfg).height - (v.as_layout ctx cfg).depth

/-- Dimensions of a built single-child offset vertical box. -/
theorem vboxOffsetOf_single (o : ℚ) (x : LayoutNode) :
    (vboxOffsetOf o [x]).height = x.height - o
    ∧ (vboxOffsetOf o [x]).depth = x.depth - o
    ∧ vboxOffset (vboxOffsetOf o [x]) = o := by
  refine ⟨?_, ?_, ?_⟩ <;>
    simp [vboxOffsetOf, VBoxB.new, VBoxB.add_node, VBoxB.set_offset,
      VBoxB.build, LayoutNode.height, LayoutNode.depth, LayoutNode.node,
      vboxOffset]

/-- C7: for a symbol of Operator atom type, `add_symbol` takes the
large-operator path; above Text style, `add_largeop` wraps the vertical
variant of the glyph requested at the minimum display operator height in a
vertical box whose baseline offset is half the sum of the variant's height
and depth minus the scaled axis height, so the resulting box is vertically
centered on the math axis ((height + depth)/2 equals the scaled axis
height); under the font provider's contract the selected variant's extent is
at least the scaled minimum display operator height; at Text style or
smaller, the plain glyph node is used unchanged. -/
theorem add_largeop_spec (ctx : FontCtx) (cfg : LayoutSettings)
    (sym : Symbol) (lim : Bool)
    (hop : sym.atom_type = .Operator lim)
    (hv : ∀ (g : Glyph) (s : ℚ),
      scaledFont ctx cfg s ≤ variantExtent ctx cfg (ctx.vert_variant g s)) :
    (add_symbol ctx cfg sym = add_largeop ctx cfg sym)
    ∧ (cfg.style.sgt .Text = false →
        add_largeop ctx cfg sym
          = [(ctx.glyph_metrics sym.unicode).as_layout ctx cfg])
    ∧ (cfg.style.sgt .Text = true →
        (((add_largeop ctx cfg sym).getD 0 (kernH 0)).height
            + ((add_largeop ctx cfg sym).getD 0 (kernH 0)).depth) / 2
          = scaledFont ctx cfg ctx.axis_height
        ∧ vboxOffset ((add_largeop ctx cfg sym).getD 0 (kernH 0))
          = (((ctx.vert_variant (ctx.glyph_metrics sym.unicode)
                ctx.display_operator_min_height).as_layout ctx cfg).height
              + ((ctx.vert_variant (ctx.glyph_metrics sym.unicode)
                ctx.display_operator_min_height).as_layout ctx cfg).depth) / 2
            - scaledFont ctx cfg ctx.axis_height
        ∧ vboxContents ((add_largeop ctx cfg sym).getD 0 (kernH 0))
          = [(ctx.vert_variant (ctx.glyph_metrics sym.unicode)
              ctx.display_operator_min_height).as_layout ctx cfg]
        ∧ scaledFont ctx cfg ctx.display_operator_min_height
          ≤ variantExtent ctx cfg (ctx.vert_variant
              (ctx.glyph_metrics sym.unicode)
              ctx.display_operator_min_height)) := by
  refine ⟨?_, ?_, ?_⟩
  · rw [add_symbol, hop]
  · intro h
    rw [add_largeop]
    simp [h]
  · intro h
    rw [add_largeop]
    simp only [h, if_true, List.getD_cons_zero]
    obtain ⟨e1, e2, e3⟩ := vboxOffsetOf_single
      ((((ctx.vert_variant (ctx.glyph_metrics sym.unicode)
          ctx.display_operator_min_height).as_layout ctx cfg).height
        + ((ctx.vert_variant (ctx.glyph_metrics sym.unicode)
          ctx.display_operator_min_height).as_layout ctx cfg).depth) / 2
        - scaledFont ctx cfg ctx.axis_height)
      ((ctx.vert_variant (ctx.glyph_metrics sym.unicode)
        ctx.display_operator_min_height).as_layout ctx cfg)
    refine ⟨?_, ?_, ?_, hv _ _⟩
    · rw [e1, e2]
      ring
    · exact e3
    · exact vboxContents_vboxOffsetOf _ _

/-- Witness for C7 at the concrete font context and a concrete operator
symbol in Display style. -/
theorem add_largeop_spec_witness :
    (add_symbol ctx0 ⟨.Display, 1000⟩ ⟨8721, .Operator false⟩
      = add_largeop ctx0 ⟨.Display, 1000⟩ ⟨8721, .Operator false⟩)
    ∧ (((add_largeop ctx0 ⟨.Display, 1000⟩
            ⟨8721, .Operator false⟩).getD 0 (kernH 0)).height
          + ((add_largeop ctx0 ⟨.Display, 1000⟩
            ⟨8721, .Operator false⟩).getD 0 (kernH 0)).depth) / 2
        = scaledFont ctx0 ⟨.Display, 1000⟩ ctx0.axis_height := by
  have hv : ∀ (g : Glyph) (s : ℚ),
      scaledFont ctx0 ⟨.Display, 1000⟩ s
        ≤ variantExtent ctx0 ⟨.Display, 1000⟩ (ctx0.vert_variant g s) := by
    intro g s
    simp only [variantExtent, VariantGlyph.as_layout, ctx0,
      Glyph.as_layout, scaledFont, scale_factor, LayoutNode.height,
      LayoutNode.depth]
    have hc := Nat.le_ceil s
    norm_num
    linarith
  have h := add_largeop_spec ctx0 ⟨.Display, 1000⟩ ⟨8721, .Operator false⟩
    false rfl hv
  exact ⟨h.1, (h.2.2 rfl).1⟩

/-- C8: a Style directive changes the settings used for the following
siblings of the same sequence — `layoutAux` continues on the rest of the
list with the updated style — while a recursive call for a child sequence
(here a Group) receives the settings by value and the traversal continues
on the rest of the parent sequence with the parent's own unchanged
settings, whatever style directives the child contains. -/
theorem style_directive_scoping (ctx : FontCtx) (cfg : LayoutSettings)
    (prev pn : AtomType) (s : Style) (g rest : List ParseNode) :
    (layoutAux ctx (.Style s :: rest) cfg prev pn
      = spacingNodes ctx cfg prev .Transparent
        ++ layoutAux ctx rest { cfg with style := s } .Transparent pn)
    ∧ (layoutAux ctx (.Group g :: rest) cfg prev pn
      = spacingNodes ctx cfg prev .Alpha
        ++ [(layout_recurse ctx g cfg .Transparent).as_node]
        ++ layoutAux ctx rest cfg .Alpha pn) := by
  constructor
  · rw [layoutAux.eq_def]
    simp [dispatch, reclassify, ParseNode.atom_type]
  · rw [layoutAux.eq_def]
    simp [dispatch, reclassify, ParseNode.atom_type]

/-- The atom type peeked for the node after the current one: the next
sibling's, or the parent's trailing context at the end of the sequence
(engine.rs, lines 43–47). -/
def nextAtom (rest : List ParseNode) (parent_next : AtomType) : AtomType :=
  match rest with
  | [] => parent_next
  | m :: _ => m.atom_type

/-- C9: node kinds with no dispatch case — PlainText, Stack, Array — are
skipped: their dispatch emits no layout node and leaves the settings
unchanged, and the traversal continues over the remaining nodes of the
sequence (threading the skipped node's atom type as the new previous atom),
so `layout_recurse` still completes with every remaining node laid out
instead of aborting. -/
theorem unsupported_nodes_skipped (ctx : FontCtx) (cfg : LayoutSettings)
    (prev pn nx : AtomType) (t : String) (at_ : AtomType)
    (lines : List (List ParseNode))
    (rows : List (List (List ParseNode))) (rest : List ParseNode) :
    (dispatch ctx (.PlainText t) cfg nx = ([], cfg)
      ∧ dispatch ctx (.Stack at_ lines) cfg nx = ([], cfg)
      ∧ dispatch ctx (.Array rows) cfg nx = ([], cfg))
    ∧ (layoutAux ctx (.PlainText t :: rest) cfg prev pn
      = spacingNodes ctx cfg prev .Alpha ++ layoutAux ctx rest cfg .Alpha pn)
    ∧ (layoutAux ctx (.Stack at_ lines :: rest) cfg prev pn
      = spacingNodes ctx cfg prev (reclassify prev (nextAtom rest pn) at_)
        ++ layoutAux ctx rest cfg
          (reclassify prev (nextAtom rest pn) at_) pn)
    ∧ (layoutAux ctx (.Array rows :: rest) cfg prev pn
      = spacingNodes ctx cfg prev .Inner
        ++ layoutAux ctx rest cfg .Inner pn) := by
  refine ⟨⟨?_, ?_, ?_⟩, ?_, ?_, ?_⟩
  · simp [dispatch]
  · simp [dispatch]
  · simp [dispatch]
  · rw [layoutAux.eq_def]
    simp [dispatch, reclassify, ParseNode.atom_type]
  · rw [layoutAux.eq_def]
    simp [dispatch, ParseNode.atom_type, nextAtom]
  · rw [layoutAux.eq_def]
    simp [dispatch, reclassify, ParseNode.atom_type]

end ReX